import Mathlib

/-!
# Hermitian adaptor of the Blaze library: invariant predicates

A shallow embedding of the free functions of
`blaze/math/adaptors/HermitianMatrix.h` (`trySet`, `tryAdd`, ..., the
`tryAssign` overloads and their arithmetic-assignment variants, `invert` and
the arithmetic traits), of the sparse-minus-dense expression of
`blaze/math/expressions/SVecDVecSubExpr.h` and of the restructuring `row`
functions of `blaze/math/views/Row.h`, together with the properties they are
specified to have.

Conventions of the embedding

* `size_t` values are natural numbers; every `+` and `-` the source performs on
  them is taken modulo `2 ^ 64` (`uadd`, `usub`).
* A C++ template parameter for the element type is a Lean type `E` with an
  `Element E` instance that supplies `IsBuiltin_v<E>`, `conj` and `isReal`.
* A dense vector is a `List E`; reading it outside its bounds has no value
  (`none`).  A matrix carries its dimensions and an entry function.
* A predicate returns `Option Bool`: `some b` when the C++ function returns
  `b`, `none` when its evaluation leaves defined behaviour (out-of-range read)
  or raises an exception.  The vector and row operations return
  `Except Fault`, which tells the exceptions apart.
* A vector has value semantics.  The backing matrix type of the adaptor is a
  template parameter: whether a copy of it has element storage of its own is a
  parameter of `invert` (`CopyConstructor`).
-/

namespace Blaze

/-! ## Machine arithmetic on `size_t` -/

/-- Number of values of `size_t` (64-bit): `2 ^ 64`. -/
def sizeMod : Nat := 18446744073709551616

/-- Addition of two `size_t` values, wrapping around. -/
def uadd (a b : Nat) : Nat := (a + b) % sizeMod

/-- Subtraction of two `size_t` values, wrapping around. -/
def usub (a b : Nat) : Nat := (a + sizeMod - b) % sizeMod

/-! ## Element types -/

/-- What the adaptor needs to know about its element type `E`:
`IsBuiltin_v<E>` (`blaze/util/typetraits/IsBuiltin.h`), `conj`
(`blaze/math/shims/Conjugate.h`) and `isReal` (`blaze/math/shims/IsReal.h`).
These headers are consumed as an interface. -/
class Element (E : Type) where
  /-- The compile-time constant `IsBuiltin_v<E>`. -/
  isBuiltin : Bool
  /-- Complex conjugate. -/
  conj : E → E
  /-- Whether the value is real-valued. -/
  isReal : E → Bool

/-- The contract of a numeric element type: conjugation is an involution, the
real values are the fixed points of conjugation, and every value of a built-in
type is real. -/
class LawfulElement (E : Type) [Element E] : Prop where
  conj_conj : ∀ x : E, Element.conj (Element.conj x) = x
  isReal_iff : ∀ x : E, Element.isReal x = true ↔ Element.conj x = x
  builtin_isReal : Element.isBuiltin E = true → ∀ x : E, Element.isReal x = true

/-- A `complex<T>` value over an exact integral `T`. -/
structure Cplx where
  re : Int
  im : Int
deriving DecidableEq, Repr

/-- The element type `complex<T>`: not built-in, `conj` negates the imaginary
part, `isReal` tests the imaginary part against zero. -/
instance : Element Cplx where
  isBuiltin := false
  conj z := ⟨z.re, -z.im⟩
  isReal z := decide (z.im = 0)

/-- A built-in element type (`int`): `conj` is the identity and every value is
real. -/
instance : Element Int where
  isBuiltin := true
  conj x := x
  isReal _ := true

/-! ## Containers -/

/-- A matrix operand: its dimensions and its entries `(i, j)`. -/
structure Mat (E : Type) where
  rows : Nat
  columns : Nat
  elem : Nat → Nat → E

/-- The Hermitian adaptor: it owns one backing matrix `matrix_`. -/
structure HermitianMatrix (E : Type) where
  matrix_ : Mat E

/-! ## Single-element predicates -/

/-- Source function `trySet( mat, i, j, value )`: `return ( i != j || isReal( value ) );` -/
def trySet {E : Type} [Element E] (_mat : HermitianMatrix E) (i j : Nat) (value : E) :
    Option Bool :=
  some (i != j || Element.isReal value)

/-- Source function `tryAdd`: `return trySet( mat, i, j, value );` -/
def tryAdd {E : Type} [Element E] (mat : HermitianMatrix E) (i j : Nat) (value : E) :
    Option Bool :=
  trySet mat i j value

/-- Source function `trySub`: `return trySet( mat, i, j, value );` -/
def trySub {E : Type} [Element E] (mat : HermitianMatrix E) (i j : Nat) (value : E) :
    Option Bool :=
  trySet mat i j value

/-- Source function `tryMult`: `return trySet( mat, i, j, value );` -/
def tryMult {E : Type} [Element E] (mat : HermitianMatrix E) (i j : Nat) (value : E) :
    Option Bool :=
  trySet mat i j value

/-- Source function `tryDiv`: `return trySet( mat, i, j, value );` -/
def tryDiv {E : Type} [Element E] (mat : HermitianMatrix E) (i j : Nat) (value : E) :
    Option Bool :=
  trySet mat i j value

/-! ## Control flow of a function body -/

/-- Effect of a statement on the control flow of the enclosing function:
control continues with the following statement, or the function is left by a
`return`. -/
inductive Flow (α : Type) where
  | next : Flow α
  | ret : α → Flow α

/-- Two statements in sequence: the second runs only when the first did not
return. -/
def Flow.seq {α : Type} : Flow α → Flow α → Flow α
  | Flow.next, k => k
  | Flow.ret v, _ => Flow.ret v

/-- What a function body yields to its caller.  A body of a non-void function
that ends without a `return` has no defined value. -/
def Flow.result {α : Type} : Flow (Option α) → Option α
  | Flow.next => none
  | Flow.ret v => v

/-! ## Vector (row/column slice) predicates

A vector operand is used through `size()` and `operator[]` only and is
represented by the list of its `size()` values.  `Vector<VT,false>` is a column
vector (it extends over the rows `row .. row + size()`), `Vector<VT,true>` a
row vector. -/

/-- The first statement of `tryAssign( lhs, const Vector<VT,false>& rhs, row, column )`:
```
return ( IsBuiltin_v<ET> ||
         column < row ||
         (~rhs).size() <= column - row ||
         isReal( (~rhs)[column-row] ) );
```
The disjunction is evaluated left to right and stops at the first true operand. -/
def tryAssignColumnVector.first {E : Type} [Element E] (rhs : List E) (row column : Nat) :
    Flow (Option Bool) :=
  Flow.ret
    (if Element.isBuiltin E then some true
     else if column < row then some true
     else if rhs.length ≤ usub column row then some true
     else (rhs[usub column row]?).map Element.isReal)

/-- The second statement of the same body: `return true;` -/
def tryAssignColumnVector.second : Flow (Option Bool) :=
  Flow.ret (some true)

/-- Source function `tryAssign( lhs, const Vector<VT,false>& rhs, row, column )`: the two
statements of the body in sequence. -/
def tryAssignColumnVector {E : Type} [Element E] (_lhs : HermitianMatrix E) (rhs : List E)
    (row column : Nat) : Option Bool :=
  (Flow.seq (tryAssignColumnVector.first rhs row column) tryAssignColumnVector.second).result

/-- The first statement of `tryAssign( lhs, const Vector<VT,true>& rhs, row, column )`:
```
return ( IsBuiltin_v<ET> ||
         row < column ||
         (~rhs).size() <= row - column ||
         isReal( (~rhs)[row-column] ) );
```
-/
def tryAssignRowVector.first {E : Type} [Element E] (rhs : List E) (row column : Nat) :
    Flow (Option Bool) :=
  Flow.ret
    (if Element.isBuiltin E then some true
     else if row < column then some true
     else if rhs.length ≤ usub row column then some true
     else (rhs[usub row column]?).map Element.isReal)

/-- The second statement of the same body: `return true;` -/
def tryAssignRowVector.second : Flow (Option Bool) :=
  Flow.ret (some true)

/-- Source function `tryAssign( lhs, const Vector<VT,true>& rhs, row, column )`. -/
def tryAssignRowVector {E : Type} [Element E] (_lhs : HermitianMatrix E) (rhs : List E)
    (row column : Nat) : Option Bool :=
  (Flow.seq (tryAssignRowVector.first rhs row column) tryAssignRowVector.second).result

/-- The call `tryAssign( lhs, ~rhs, row, column )` for a `Vector<VT,TF>`: overload
resolution selects the row-vector overload for `TF == true` and the
column-vector overload for `TF == false`. -/
def tryAssignVector {E : Type} [Element E] (lhs : HermitianMatrix E) (tf : Bool) (rhs : List E)
    (row column : Nat) : Option Bool :=
  if tf then tryAssignRowVector lhs rhs row column
  else tryAssignColumnVector lhs rhs row column

/-! ## Band predicates -/

/-- The loop of the dense band predicate,
```
for( size_t i=0UL; i<(~rhs).size(); ++i ) {
   if( !isReal( (~rhs)[i] ) )
      return false;
}
```
It visits the elements in index order; every index it reads is below `size()`. -/
def tryAssignDenseBand.loop {E : Type} [Element E] : List E → Flow (Option Bool)
  | [] => Flow.next
  | x :: xs =>
    if !Element.isReal x then Flow.ret (some false)
    else tryAssignDenseBand.loop xs

/-- Source function `tryAssign( lhs, const DenseVector<VT,TF>& rhs, band, row, column )`:
```
if( band == 0L ) { for ... }
return true;
```
-/
def tryAssignDenseBand {E : Type} [Element E] (_lhs : HermitianMatrix E) (rhs : List E)
    (band : Int) (_row _column : Nat) : Option Bool :=
  (Flow.seq (if band = 0 then tryAssignDenseBand.loop rhs else Flow.next)
    (Flow.ret (some true))).result

/-- A sparse vector: its size and its stored elements, each an index with a
value. -/
structure SparseVec (E : Type) where
  size : Nat
  elements : List (Nat × E)

/-- The loop of the sparse band predicate,
```
for( const auto& element : ~rhs ) {
   if( !isReal( element.value() ) )
      return false;
}
```
-/
def tryAssignSparseBand.loop {E : Type} [Element E] : List (Nat × E) → Flow (Option Bool)
  | [] => Flow.next
  | e :: es =>
    if !Element.isReal e.2 then Flow.ret (some false)
    else tryAssignSparseBand.loop es

/-- Source function `tryAssign( lhs, const SparseVector<VT,TF>& rhs, band, row, column )`. -/
def tryAssignSparseBand {E : Type} [Element E] (_lhs : HermitianMatrix E) (rhs : SparseVec E)
    (band : Int) (_row _column : Nat) : Option Bool :=
  (Flow.seq (if band = 0 then tryAssignSparseBand.loop rhs.elements else Flow.next)
    (Flow.ret (some true))).result

/-- A vector operand of a band operation: dense or sparse. -/
inductive BandOperand (E : Type) where
  | dense : List E → BandOperand E
  | sparse : SparseVec E → BandOperand E

/-- The call `tryAssign( lhs, ~rhs, band, row, column )` for a `Vector<VT,TF>`:
overload resolution selects the dense or the sparse overload by the type of
the operand. -/
def tryAssignBand {E : Type} [Element E] (lhs : HermitianMatrix E) (rhs : BandOperand E)
    (band : Int) (row column : Nat) : Option Bool :=
  match rhs with
  | BandOperand.dense v => tryAssignDenseBand lhs v band row column
  | BandOperand.sparse v => tryAssignSparseBand lhs v band row column

/-! ## Block predicate -/

/-- Modelled from the spec: `submatrix( m, row, column, h, w )` of
`blaze/math/views/Submatrix.h`, the view that "extracts the square overlap
sub-block".  The view of `h` rows and `w` columns whose entry `(i, j)` is entry
`(row + i, column + j)` of `m`; a specification that does not fit into `m` is
refused with an exception. -/
def submatrix {E : Type} (m : Mat E) (row column h w : Nat) : Option (Mat E) :=
  if uadd row h ≤ m.rows ∧ uadd column w ≤ m.columns then
    some ⟨h, w, fun i j => m.elem (uadd row i) (uadd column j)⟩
  else none

/-- Modelled from the spec: `isHermitian( m )` of the dense/sparse matrix
interface, the general-purpose "is this sub-block Hermitian" scan: the matrix is
square and `m(i,j) == conj( m(j,i) )` for all of its positions. -/
def isHermitian {E : Type} [Element E] [DecidableEq E] (m : Mat E) : Bool :=
  decide (m.rows = m.columns) &&
    decide (∀ i, i < m.rows → ∀ j, j < m.columns → m.elem i j = Element.conj (m.elem j i))

/-- Source function `tryAssign( lhs, const Matrix<MT2,SO2>& rhs, row, column )`:
```
const size_t M( (~rhs).rows()    );
const size_t N( (~rhs).columns() );

if( ( row + M <= column ) || ( column + N <= row ) )
   return true;

const bool   lower( row > column );
const size_t size ( min( row + M, column + N ) - ( lower ? row : column ) );

if( size < 2UL )
   return true;

const size_t subrow( lower ? 0UL : column - row );
const size_t subcol( lower ? row - column : 0UL );

return isHermitian( submatrix( ~rhs, subrow, subcol, size, size ) );
```
-/
def tryAssignMatrix {E : Type} [Element E] [DecidableEq E] (_lhs : HermitianMatrix E)
    (rhs : Mat E) (row column : Nat) : Option Bool :=
  let M := rhs.rows
  let N := rhs.columns
  if uadd row M ≤ column ∨ uadd column N ≤ row then some true
  else
    let lower : Bool := decide (row > column)
    let size := usub (min (uadd row M) (uadd column N)) (if lower then row else column)
    if size < 2 then some true
    else
      let subrow := if lower then 0 else usub column row
      let subcol := if lower then usub row column else 0
      (submatrix rhs subrow subcol size size).map isHermitian

/-! ## Arithmetic-assignment predicates -/

/-- Vector `tryAddAssign`: `return tryAssign( lhs, ~rhs, row, column );` -/
def tryAddAssignVector {E : Type} [Element E] (lhs : HermitianMatrix E) (tf : Bool)
    (rhs : List E) (row column : Nat) : Option Bool :=
  tryAssignVector lhs tf rhs row column

/-- Band `tryAddAssign`: `return tryAssign( lhs, ~rhs, band, row, column );` -/
def tryAddAssignBand {E : Type} [Element E] (lhs : HermitianMatrix E) (rhs : BandOperand E)
    (band : Int) (row column : Nat) : Option Bool :=
  tryAssignBand lhs rhs band row column

/-- Matrix `tryAddAssign`: `return tryAssign( lhs, ~rhs, row, column );` -/
def tryAddAssignMatrix {E : Type} [Element E] [DecidableEq E] (lhs : HermitianMatrix E)
    (rhs : Mat E) (row column : Nat) : Option Bool :=
  tryAssignMatrix lhs rhs row column

/-- Vector `trySubAssign`: `return tryAssign( lhs, ~rhs, row, column );` -/
def trySubAssignVector {E : Type} [Element E] (lhs : HermitianMatrix E) (tf : Bool)
    (rhs : List E) (row column : Nat) : Option Bool :=
  tryAssignVector lhs tf rhs row column

/-- Band `trySubAssign`: `return tryAssign( lhs, ~rhs, band, row, column );` -/
def trySubAssignBand {E : Type} [Element E] (lhs : HermitianMatrix E) (rhs : BandOperand E)
    (band : Int) (row column : Nat) : Option Bool :=
  tryAssignBand lhs rhs band row column

/-- Matrix `trySubAssign`: `return tryAssign( lhs, ~rhs, row, column );` -/
def trySubAssignMatrix {E : Type} [Element E] [DecidableEq E] (lhs : HermitianMatrix E)
    (rhs : Mat E) (row column : Nat) : Option Bool :=
  tryAssignMatrix lhs rhs row column

/-- Vector `tryMultAssign`: `return tryAssign( lhs, ~rhs, row, column );` -/
def tryMultAssignVector {E : Type} [Element E] (lhs : HermitianMatrix E) (tf : Bool)
    (rhs : List E) (row column : Nat) : Option Bool :=
  tryAssignVector lhs tf rhs row column

/-- Band `tryMultAssign`: `return tryAssign( lhs, ~rhs, band, row, column );` -/
def tryMultAssignBand {E : Type} [Element E] (lhs : HermitianMatrix E) (rhs : BandOperand E)
    (band : Int) (row column : Nat) : Option Bool :=
  tryAssignBand lhs rhs band row column

/-- Matrix `trySchurAssign`: `return tryAssign( lhs, ~rhs, row, column );` -/
def trySchurAssignMatrix {E : Type} [Element E] [DecidableEq E] (lhs : HermitianMatrix E)
    (rhs : Mat E) (row column : Nat) : Option Bool :=
  tryAssignMatrix lhs rhs row column

/-- Vector `tryDivAssign`: `return tryAssign( lhs, ~rhs, row, column );` -/
def tryDivAssignVector {E : Type} [Element E] (lhs : HermitianMatrix E) (tf : Bool)
    (rhs : List E) (row column : Nat) : Option Bool :=
  tryAssignVector lhs tf rhs row column

/-- Band `tryDivAssign`: `return tryAssign( lhs, ~rhs, band, row, column );` -/
def tryDivAssignBand {E : Type} [Element E] (lhs : HermitianMatrix E) (rhs : BandOperand E)
    (band : Int) (row column : Nat) : Option Bool :=
  tryAssignBand lhs rhs band row column

/-! ## The validate-then-commit protocol

The member functions of the adaptor that perform the writes live in
`blaze/math/adaptors/hermitianmatrix/Dense.h` and `Sparse.h`; the protocol is
taken from the specification of the adaptor. -/

/-- Modelled from the spec: the "Proposed Mutation" handed to the invariant
predicates, one of `SetElement(i, j, value)`, `AssignBand(bandIndex, row,
column, values)`, `AssignVector(row, column, orientation, values)` and
`AssignBlock(row, column, sourceMatrix)`. -/
inductive Mutation (E : Type) where
  | setElement : (i j : Nat) → (value : E) → Mutation E
  | assignBand : (band : Int) → (row column : Nat) → (values : List E) → Mutation E
  | assignVector : (row column : Nat) → (rowAligned : Bool) → (values : List E) → Mutation E
  | assignBlock : (row column : Nat) → (source : Mat E) → Mutation E

/-- Modelled from the spec: step 2 of the mutation protocol, "consult" the
predicate of the mutation's shape. -/
def Mutation.validate {E : Type} [Element E] [DecidableEq E] (lhs : HermitianMatrix E) :
    Mutation E → Option Bool
  | Mutation.setElement i j value => trySet lhs i j value
  | Mutation.assignBand band row column values => tryAssignDenseBand lhs values band row column
  | Mutation.assignVector row column rowAligned values =>
    tryAssignVector lhs rowAligned values row column
  | Mutation.assignBlock row column source => tryAssignMatrix lhs source row column

/-- Modelled from the spec: the "target entries" of a mutation and the value it
puts there.  An element write targets `(i, j)`; a band write of `n` values
targets `(row + k, column + k)`, a column-aligned slice `(row + k, column)`, a
row-aligned slice `(row, column + k)`, each for `k < n`; a block targets
`(row + a, column + b)` for every entry `(a, b)` of the source. -/
def Mutation.target {E : Type} (m : Mutation E) (i j : Nat) : Option E :=
  match m with
  | Mutation.setElement a b value => if i = a ∧ j = b then some value else none
  | Mutation.assignBand _ row column values =>
    if row ≤ i ∧ column ≤ j ∧ i - row = j - column then values[i - row]? else none
  | Mutation.assignVector row column rowAligned values =>
    if rowAligned then (if i = row ∧ column ≤ j then values[j - column]? else none)
    else (if j = column ∧ row ≤ i then values[i - row]? else none)
  | Mutation.assignBlock row column source =>
    if row ≤ i ∧ i < row + source.rows ∧ column ≤ j ∧ j < column + source.columns then
      some (source.elem (i - row) (j - column))
    else none

/-- Modelled from the spec: step 3 of the mutation protocol, "apply the mutation
to the backend's target entries AND [...] write the conjugate value into the
mirrored transposed position (`backing(j,i) = conjugate(newValue)`)".  A target
entry takes its new value, the mirror image of a target entry the conjugate of
that value, every other entry stays. -/
def Mutation.commit {E : Type} [Element E] (lhs : HermitianMatrix E) (m : Mutation E) :
    HermitianMatrix E :=
  ⟨⟨lhs.matrix_.rows, lhs.matrix_.columns, fun i j =>
    match m.target i j with
    | some v => v
    | none =>
      match m.target j i with
      | some v => Element.conj v
      | none => lhs.matrix_.elem i j⟩⟩

/-- Modelled from the spec: the two-phase protocol.  The mutation is committed
exactly when its predicate returns true; otherwise the operation fails (`none`)
and the matrix is not touched. -/
def Mutation.apply {E : Type} [Element E] [DecidableEq E] (lhs : HermitianMatrix E)
    (m : Mutation E) : Option (HermitianMatrix E) :=
  if Mutation.validate lhs m = some true then some (Mutation.commit lhs m) else none

/-- Modelled from the spec: `isIntact`, the "runtime self-check that re-verifies
INV-1 and INV-2 hold": the backing matrix is square and
`backing(i,j) == conjugate(backing(j,i))` for all valid `(i,j)`. -/
def isIntact {E : Type} [Element E] [DecidableEq E] (m : HermitianMatrix E) : Bool :=
  isHermitian m.matrix_

/-! ## The diagonal positions under a block

The notions the block predicate is specified with, stated on positions of the
target. -/

/-- The first diagonal position `(d, d)` a block written at `(row, column)` can
cover. -/
def diagFirst (row column : Nat) : Nat := max row column

/-- One past the last diagonal position covered by the block `rhs` written at
`(row, column)`: it covers the rows `row .. row + M` and the columns
`column .. column + N`. -/
def diagEnd {E : Type} (rhs : Mat E) (row column : Nat) : Nat :=
  min (row + rhs.rows) (column + rhs.columns)

/-- The number of diagonal positions the block covers. -/
def overlapSize {E : Type} (rhs : Mat E) (row column : Nat) : Nat :=
  diagEnd rhs row column - diagFirst row column

/-- The square overlap sub-block of the source: its entry `(a, b)` is the
source entry that lands on the target position
`(diagFirst + a, diagFirst + b)`. -/
def overlap {E : Type} (rhs : Mat E) (row column : Nat) : Mat E :=
  ⟨overlapSize rhs row column, overlapSize rhs row column, fun a b =>
    rhs.elem (diagFirst row column + a - row) (diagFirst row column + b - column)⟩

/-! ## Concrete operands used in the examples -/

/-- The imaginary unit. -/
def Cplx.I : Cplx := ⟨0, 1⟩

/-- The `n × n` Hermitian matrix with all entries zero. -/
def zeroHermitian (n : Nat) : HermitianMatrix Cplx :=
  ⟨⟨n, n, fun _ _ => ⟨0, 0⟩⟩⟩

/-- A matrix given by its rows; positions that are not listed hold zero. -/
def Mat.ofRows (rows columns : Nat) (entries : List (List Cplx)) : Mat Cplx :=
  ⟨rows, columns, fun i j => (entries.getD i []).getD j ⟨0, 0⟩⟩

/-- A `2 × 2` block which, written at `(0, 1)`, straddles the diagonal: its
entries land on `(0,1)`, `(0,2)`, `(1,1)` and `(1,2)`, and the entry that lands
on the diagonal position `(1,1)` is the imaginary unit. -/
def straddlingBlock : Mat Cplx :=
  Mat.ofRows 2 2 [[⟨1, 0⟩, ⟨2, 0⟩], [Cplx.I, ⟨3, 0⟩]]

/-- The preconditions the predicates assert on the position of a mutation
(`row + size() <= lhs.rows()` and its like), and for a band write that `row`
and `column` are a position of the band (`column - row == band`). -/
def Mutation.fits {E : Type} (lhs : HermitianMatrix E) : Mutation E → Prop
  | Mutation.setElement i j _ => i < lhs.matrix_.rows ∧ j < lhs.matrix_.columns
  | Mutation.assignBand band row column values =>
    (column : Int) - (row : Int) = band ∧ row + values.length ≤ lhs.matrix_.rows ∧
      column + values.length ≤ lhs.matrix_.columns
  | Mutation.assignVector row column rowAligned values =>
    if rowAligned then row ≤ lhs.matrix_.rows ∧ column + values.length ≤ lhs.matrix_.columns
    else row + values.length ≤ lhs.matrix_.rows ∧ column ≤ lhs.matrix_.columns
  | Mutation.assignBlock row column source =>
    row + source.rows ≤ lhs.matrix_.rows ∧ column + source.columns ≤ lhs.matrix_.columns

/-- A block that covers exactly one diagonal position. -/
def Mutation.coversOneDiagonal {E : Type} : Mutation E → Prop
  | Mutation.assignBlock row column source => overlapSize source row column = 1
  | _ => False

/-! ## Attempted mutations -/

/-- Modelled from the spec: one call of a mutating entry point, "if rejected,
fail the operation without touching the backend".  The matrix after the call
and whether the call succeeded: the committed matrix when the predicate
returns true, the matrix as it was otherwise. -/
def Mutation.attempt {E : Type} [Element E] [DecidableEq E] (lhs : HermitianMatrix E)
    (m : Mutation E) : HermitianMatrix E × Bool :=
  match Mutation.apply lhs m with
  | some lhs2 => (lhs2, true)
  | none => (lhs, false)

/-- A mutation whose values respect the symmetry: whenever it writes both a
position and the mirror image of that position, the two values are conjugates
of each other (so a value written to the diagonal is real). -/
def Mutation.respectsSymmetry {E : Type} [Element E] (m : Mutation E) : Prop :=
  ∀ i j v u, m.target i j = some v → m.target j i = some u → v = Element.conj u

/-! ## Type traits -/

/-- Trait `IsSymmetric< HermitianMatrix<MT,SO,DF> >`, which derives from
`IsBuiltin< ElementType_t<MT> >`. -/
def IsSymmetric (E : Type) [Element E] : Bool := Element.isBuiltin E

/-- Trait `IsHermitian< HermitianMatrix<MT,SO,DF> >`, which derives from
`TrueType`. -/
def IsHermitian (_E : Type) : Bool := true

/-- Trait `IsSquare< HermitianMatrix<MT,SO,DF> >`, which derives from
`TrueType`. -/
def IsSquare (_E : Type) : Bool := true

/-- The second operand of an arithmetic trait specialisation of the header.
Vectors carry their transpose flag (`false`: column vector, `true`: row
vector); `numeric` is a scalar type `T` with `IsNumeric_v<T>`.

A symmetric adaptor `SymmetricMatrix<MT,SO,DF,NF>` carries whether its fourth
template argument `NF` is the default argument of the class template (`true`)
or another value (`false`).  A specialisation written for
`SymmetricMatrix<MT2,SO2,DF2,NF>` with a template parameter `NF` matches both;
one written for `SymmetricMatrix<MT2,SO2,DF2>` matches the default argument
only. -/
inductive OperandType where
  | staticMatrix : OperandType
  | hybridMatrix : OperandType
  | dynamicMatrix : OperandType
  | customMatrix : OperandType
  | compressedMatrix : OperandType
  | identityMatrix : OperandType
  | symmetricMatrix : Bool → OperandType
  | hermitianMatrix : OperandType
  | numeric : OperandType
  | staticVector : Bool → OperandType
  | hybridVector : Bool → OperandType
  | dynamicVector : Bool → OperandType
  | customVector : Bool → OperandType
  | compressedVector : Bool → OperandType
deriving DecidableEq, Repr

/-- The adaptor a trait puts around its result type.  `unwrapped` is
`using Type = XTrait_t< MT, B >`, the result type of the backing matrix type
without an adaptor; `hermitian` is `HermitianMatrix< XTrait_t< MT, B > >`,
`symmetric` is `SymmetricMatrix< ... >`, `diagonal` is `DiagonalMatrix< ... >`. -/
inductive Wrapper where
  | unwrapped : Wrapper
  | hermitian : Wrapper
  | symmetric : Wrapper
  | diagonal : Wrapper
deriving DecidableEq, Repr

/-- Trait `AddTrait< HermitianMatrix<MT,SO,DF>, B >` for an element type `E` of
the Hermitian operand; `none` where the header has no specialisation.  The
symmetric operand is matched as `SymmetricMatrix<MT2,SO2,DF2,NF>`, for every
`NF`. -/
def AddTrait.left (E : Type) [Element E] : OperandType → Option Wrapper
  | OperandType.staticMatrix => some Wrapper.unwrapped
  | OperandType.hybridMatrix => some Wrapper.unwrapped
  | OperandType.dynamicMatrix => some Wrapper.unwrapped
  | OperandType.customMatrix => some Wrapper.unwrapped
  | OperandType.compressedMatrix => some Wrapper.unwrapped
  | OperandType.identityMatrix => some Wrapper.hermitian
  | OperandType.symmetricMatrix _ =>
    some (if IsSymmetric E then Wrapper.symmetric else Wrapper.unwrapped)
  | OperandType.hermitianMatrix => some Wrapper.hermitian
  | _ => none

/-- Trait `AddTrait< B, HermitianMatrix<MT,SO,DF> >`.  The symmetric operand is
matched as `SymmetricMatrix<MT1,SO1,DF1>`, with the default `NF` only. -/
def AddTrait.right (E : Type) [Element E] : OperandType → Option Wrapper
  | OperandType.staticMatrix => some Wrapper.unwrapped
  | OperandType.hybridMatrix => some Wrapper.unwrapped
  | OperandType.dynamicMatrix => some Wrapper.unwrapped
  | OperandType.customMatrix => some Wrapper.unwrapped
  | OperandType.compressedMatrix => some Wrapper.unwrapped
  | OperandType.identityMatrix => some Wrapper.hermitian
  | OperandType.symmetricMatrix true =>
    some (if IsSymmetric E then Wrapper.symmetric else Wrapper.unwrapped)
  | OperandType.hermitianMatrix => some Wrapper.hermitian
  | _ => none

/-- Trait `SubTrait< HermitianMatrix<MT,SO,DF>, B >`.  The symmetric operand is
matched as `SymmetricMatrix<MT2,SO2,DF2>`, with the default `NF` only. -/
def SubTrait.left (E : Type) [Element E] : OperandType → Option Wrapper
  | OperandType.staticMatrix => some Wrapper.unwrapped
  | OperandType.hybridMatrix => some Wrapper.unwrapped
  | OperandType.dynamicMatrix => some Wrapper.unwrapped
  | OperandType.customMatrix => some Wrapper.unwrapped
  | OperandType.compressedMatrix => some Wrapper.unwrapped
  | OperandType.identityMatrix => some Wrapper.hermitian
  | OperandType.symmetricMatrix true =>
    some (if IsSymmetric E then Wrapper.symmetric else Wrapper.unwrapped)
  | OperandType.hermitianMatrix => some Wrapper.hermitian
  | _ => none

/-- Trait `SubTrait< B, HermitianMatrix<MT,SO,DF> >`.  The symmetric operand is
matched as `SymmetricMatrix<MT1,SO1,DF1>`, with the default `NF` only. -/
def SubTrait.right (E : Type) [Element E] : OperandType → Option Wrapper
  | OperandType.staticMatrix => some Wrapper.unwrapped
  | OperandType.hybridMatrix => some Wrapper.unwrapped
  | OperandType.dynamicMatrix => some Wrapper.unwrapped
  | OperandType.customMatrix => some Wrapper.unwrapped
  | OperandType.compressedMatrix => some Wrapper.unwrapped
  | OperandType.identityMatrix => some Wrapper.hermitian
  | OperandType.symmetricMatrix true =>
    some (if IsSymmetric E then Wrapper.symmetric else Wrapper.unwrapped)
  | OperandType.hermitianMatrix => some Wrapper.hermitian
  | _ => none

/-- Trait `SchurTrait< HermitianMatrix<MT,SO,DF>, B >`.  The symmetric operand
is matched as `SymmetricMatrix<MT2,SO2,DF2,NF>`, for every `NF`. -/
def SchurTrait.left (E : Type) [Element E] : OperandType → Option Wrapper
  | OperandType.staticMatrix => some Wrapper.unwrapped
  | OperandType.hybridMatrix => some Wrapper.unwrapped
  | OperandType.dynamicMatrix => some Wrapper.unwrapped
  | OperandType.customMatrix => some Wrapper.unwrapped
  | OperandType.compressedMatrix => some Wrapper.unwrapped
  | OperandType.identityMatrix => some Wrapper.diagonal
  | OperandType.symmetricMatrix _ =>
    some (if IsSymmetric E then Wrapper.symmetric else Wrapper.unwrapped)
  | OperandType.hermitianMatrix => some Wrapper.hermitian
  | _ => none

/-- Trait `SchurTrait< B, HermitianMatrix<MT,SO,DF> >`.  The symmetric operand
is matched as `SymmetricMatrix<MT1,SO1,DF1>`, with the default `NF` only. -/
def SchurTrait.right (E : Type) [Element E] : OperandType → Option Wrapper
  | OperandType.staticMatrix => some Wrapper.unwrapped
  | OperandType.hybridMatrix => some Wrapper.unwrapped
  | OperandType.dynamicMatrix => some Wrapper.unwrapped
  | OperandType.customMatrix => some Wrapper.unwrapped
  | OperandType.compressedMatrix => some Wrapper.unwrapped
  | OperandType.identityMatrix => some Wrapper.diagonal
  | OperandType.symmetricMatrix true =>
    some (if IsSymmetric E then Wrapper.symmetric else Wrapper.unwrapped)
  | OperandType.hermitianMatrix => some Wrapper.hermitian
  | _ => none

/-- Trait `MultTrait< HermitianMatrix<MT,SO,DF>, B >`: a numeric scalar, a
column vector or a matrix on the right.  The symmetric operand is matched as
`SymmetricMatrix<MT2,SO2,DF2>`, with the default `NF` only. -/
def MultTrait.left : OperandType → Option Wrapper
  | OperandType.numeric => some Wrapper.hermitian
  | OperandType.staticVector false => some Wrapper.unwrapped
  | OperandType.hybridVector false => some Wrapper.unwrapped
  | OperandType.dynamicVector false => some Wrapper.unwrapped
  | OperandType.customVector false => some Wrapper.unwrapped
  | OperandType.compressedVector false => some Wrapper.unwrapped
  | OperandType.staticMatrix => some Wrapper.unwrapped
  | OperandType.hybridMatrix => some Wrapper.unwrapped
  | OperandType.dynamicMatrix => some Wrapper.unwrapped
  | OperandType.customMatrix => some Wrapper.unwrapped
  | OperandType.compressedMatrix => some Wrapper.unwrapped
  | OperandType.identityMatrix => some Wrapper.hermitian
  | OperandType.symmetricMatrix true => some Wrapper.unwrapped
  | OperandType.hermitianMatrix => some Wrapper.unwrapped
  | _ => none

/-- Trait `MultTrait< B, HermitianMatrix<MT,SO,DF> >`: a numeric scalar, a row
vector or a matrix on the left.  The symmetric operand is matched as
`SymmetricMatrix<MT1,SO1,DF1>`, with the default `NF` only. -/
def MultTrait.right : OperandType → Option Wrapper
  | OperandType.numeric => some Wrapper.hermitian
  | OperandType.staticVector true => some Wrapper.unwrapped
  | OperandType.hybridVector true => some Wrapper.unwrapped
  | OperandType.dynamicVector true => some Wrapper.unwrapped
  | OperandType.customVector true => some Wrapper.unwrapped
  | OperandType.compressedVector true => some Wrapper.unwrapped
  | OperandType.staticMatrix => some Wrapper.unwrapped
  | OperandType.hybridMatrix => some Wrapper.unwrapped
  | OperandType.dynamicMatrix => some Wrapper.unwrapped
  | OperandType.customMatrix => some Wrapper.unwrapped
  | OperandType.compressedMatrix => some Wrapper.unwrapped
  | OperandType.identityMatrix => some Wrapper.hermitian
  | OperandType.symmetricMatrix true => some Wrapper.unwrapped
  | OperandType.hermitianMatrix => some Wrapper.unwrapped
  | _ => none

/-- Trait `DivTrait< HermitianMatrix<MT,SO,DF>, T >` for a numeric `T`:
`HermitianMatrix< DivTrait_t<MT,T> >`. -/
def DivTrait.left : OperandType → Option Wrapper
  | OperandType.numeric => some Wrapper.hermitian
  | _ => none

/-! ## In-place inversion -/

/-- Modelled from the spec: the "inversion-algorithm selector enumeration"
`InversionFlag` of `blaze/math/InversionFlag.h`, with the ten selectors the
inversion function names. -/
inductive InversionFlag where
  | byLU : InversionFlag
  | byLDLT : InversionFlag
  | byLDLH : InversionFlag
  | byLLH : InversionFlag
  | asGeneral : InversionFlag
  | asSymmetric : InversionFlag
  | asHermitian : InversionFlag
  | asDiagonal : InversionFlag
  | asUniLower : InversionFlag
  | asUniUpper : InversionFlag
deriving DecidableEq, Repr

/-- What the in-place inversion `invert<flag>( tmp )` of the backing matrix type
does to the element storage of `tmp`: whether it completed (`false`: it raised
`std::invalid_argument`) and what that storage holds afterwards, also when the
call did not complete. -/
structure Inverted (E : Type) where
  ok : Bool
  matrix : Mat E

/-- The copy constructor of the backing matrix type `MT`, which the statement
`MT tmp( m.matrix_ )` of `invert` calls.  `MT` is a template parameter of the
function and its header is consumed as an interface.  The new object either has
element storage of its own (`owning`: a matrix type that allocates its
elements), or it refers to the element storage of its original (`aliasing`: a
matrix type that adapts an array it does not own, as `CustomMatrix` does), and
then what is written through the copy is written to the original. -/
inductive CopyConstructor where
  | owning : CopyConstructor
  | aliasing : CopyConstructor
deriving DecidableEq, Repr

/-- The constant `flag` of `invert`:
```
constexpr InversionFlag flag( ( IF == byLU || IF == byLDLT || IF == byLDLH ||
                                IF == asGeneral || IF == asSymmetric || IF == asHermitian )
                              ? ( byLDLH )
                              : ( ( IF == byLLH )
                                  ?( byLLH )
                                  :( asDiagonal ) ) );
```
-/
def invert.flag (IF : InversionFlag) : InversionFlag :=
  if IF = InversionFlag.byLU ∨ IF = InversionFlag.byLDLT ∨ IF = InversionFlag.byLDLH ∨
      IF = InversionFlag.asGeneral ∨ IF = InversionFlag.asSymmetric ∨
      IF = InversionFlag.asHermitian then
    InversionFlag.byLDLH
  else if IF = InversionFlag.byLLH then InversionFlag.byLLH
  else InversionFlag.asDiagonal

/-- The last three statements of `invert`, for a given algorithm `flag`:
```
MT tmp( m.matrix_ );
invert<flag>( tmp );
m.matrix_ = std::move( tmp );
```
The copy constructor of `MT` and the inversion of the backing matrix type are
the parameters `copy` and `backend`.  The inversion writes to the element
storage of `tmp`.  When it completes, the assignment gives `m.matrix_` the
content of `tmp`.  When it raises its exception the assignment is not reached;
`m.matrix_` then holds what its element storage holds: the content before the
call when `tmp` has storage of its own, and what the inversion left behind when
`tmp` refers to the storage of `m.matrix_`.  The result is whether the call
completed and the matrix `m` after the call. -/
def invert.run {E : Type} (copy : CopyConstructor) (backend : InversionFlag → Mat E → Inverted E)
    (flag : InversionFlag) (m : HermitianMatrix E) : Bool × HermitianMatrix E :=
  let tmp := backend flag m.matrix_
  if tmp.ok then (true, ⟨tmp.matrix⟩)
  else
    match copy with
    | CopyConstructor.owning => (false, m)
    | CopyConstructor.aliasing => (false, ⟨tmp.matrix⟩)

/-- Source function `invert<IF>( HermitianMatrix<MT,SO,true>& m )`:
```
if( IF == asUniLower || IF == asUniUpper ) {
   BLAZE_INTERNAL_ASSERT( isIdentity( m ), "Violation of preconditions detected" );
   return;
}
constexpr InversionFlag flag( ... );
MT tmp( m.matrix_ );
invert<flag>( tmp );
m.matrix_ = std::move( tmp );
```
-/
def invert {E : Type} (copy : CopyConstructor) (backend : InversionFlag → Mat E → Inverted E)
    (IF : InversionFlag) (m : HermitianMatrix E) : Bool × HermitianMatrix E :=
  if IF = InversionFlag.asUniLower ∨ IF = InversionFlag.asUniUpper then (true, m)
  else invert.run copy backend (invert.flag IF) m

/-- A backing inversion that leaves a trace of the algorithm it was asked for:
it fills the matrix with the position of the selector in the enumeration. -/
def tracingBackend (flag : InversionFlag) (m : Mat Int) : Inverted Int :=
  ⟨true, ⟨m.rows, m.columns, fun _ _ =>
    match flag with
    | InversionFlag.byLU => 0
    | InversionFlag.byLDLT => 1
    | InversionFlag.byLDLH => 2
    | InversionFlag.byLLH => 3
    | InversionFlag.asGeneral => 4
    | InversionFlag.asSymmetric => 5
    | InversionFlag.asHermitian => 6
    | InversionFlag.asDiagonal => 7
    | InversionFlag.asUniLower => 8
    | InversionFlag.asUniUpper => 9⟩⟩

/-! ## Elementwise arithmetic

The arithmetic on matrices is performed by the expression templates of the
library (`blaze/math/expressions/`), which the adaptor consumes; the operations
are taken from their specification, in exact arithmetic over an element type
with `+`, `-`, `*`, `/`, `0` and `1`. -/

/-- The contract of exact arithmetic on a numeric element type: conjugation
commutes with the four operations and fixes zero and one, and zero and one
behave under multiplication as they should. -/
class LawfulArith (E : Type) [Element E] [Add E] [Sub E] [Mul E] [Div E] [Zero E] [One E] :
    Prop where
  conj_add : ∀ x y : E, Element.conj (x + y) = Element.conj x + Element.conj y
  conj_sub : ∀ x y : E, Element.conj (x - y) = Element.conj x - Element.conj y
  conj_mul : ∀ x y : E, Element.conj (x * y) = Element.conj x * Element.conj y
  conj_div : ∀ x y : E, Element.conj (x / y) = Element.conj x / Element.conj y
  conj_zero : Element.conj (0 : E) = 0
  conj_one : Element.conj (1 : E) = 1
  mul_zero : ∀ x : E, x * 0 = 0
  zero_mul : ∀ x : E, 0 * x = 0
  mul_one : ∀ x : E, x * 1 = x
  one_mul : ∀ x : E, 1 * x = x

instance : Add Cplx := ⟨fun z w => ⟨z.re + w.re, z.im + w.im⟩⟩

instance : Sub Cplx := ⟨fun z w => ⟨z.re - w.re, z.im - w.im⟩⟩

instance : Mul Cplx := ⟨fun z w => ⟨z.re * w.re - z.im * w.im, z.re * w.im + z.im * w.re⟩⟩

/-- Division of complex values over an integral type: the quotient formula
with each component rounded toward zero. -/
instance : Div Cplx := ⟨fun z w =>
  ⟨(z.re * w.re + z.im * w.im).tdiv (w.re * w.re + w.im * w.im),
    (z.im * w.re - z.re * w.im).tdiv (w.re * w.re + w.im * w.im)⟩⟩

instance : Zero Cplx := ⟨⟨0, 0⟩⟩

instance : One Cplx := ⟨⟨1, 0⟩⟩

/-- Modelled from the spec: the elementwise sum `A + B`. -/
def Mat.add {E : Type} [Add E] (A B : Mat E) : Mat E :=
  ⟨A.rows, A.columns, fun i j => A.elem i j + B.elem i j⟩

/-- Modelled from the spec: the elementwise difference `A - B`. -/
def Mat.sub {E : Type} [Sub E] (A B : Mat E) : Mat E :=
  ⟨A.rows, A.columns, fun i j => A.elem i j - B.elem i j⟩

/-- Modelled from the spec: the Schur (elementwise) product `A % B`. -/
def Mat.schur {E : Type} [Mul E] (A B : Mat E) : Mat E :=
  ⟨A.rows, A.columns, fun i j => A.elem i j * B.elem i j⟩

/-- Modelled from the spec: the scaled matrix `s * A`. -/
def Mat.scalarMult {E : Type} [Mul E] (s : E) (A : Mat E) : Mat E :=
  ⟨A.rows, A.columns, fun i j => s * A.elem i j⟩

/-- Modelled from the spec: the scaled matrix `A * s`. -/
def Mat.multScalar {E : Type} [Mul E] (A : Mat E) (s : E) : Mat E :=
  ⟨A.rows, A.columns, fun i j => A.elem i j * s⟩

/-- Modelled from the spec: the scaled matrix `A / s`. -/
def Mat.divScalar {E : Type} [Div E] (A : Mat E) (s : E) : Mat E :=
  ⟨A.rows, A.columns, fun i j => A.elem i j / s⟩

/-- Modelled from the spec: the `n × n` identity matrix. -/
def Mat.identity {E : Type} [Zero E] [One E] (n : Nat) : Mat E :=
  ⟨n, n, fun i j => if i = j then 1 else 0⟩

/-- Modelled from the spec: the matrix product `A * B`, whose entry `(i, j)` is
the sum of `A(i,k) * B(k,j)` over the columns `k` of `A`. -/
def Mat.mult {E : Type} [Add E] [Mul E] [Zero E] (A B : Mat E) : Mat E :=
  ⟨A.rows, B.columns, fun i j =>
    (List.range A.columns).foldl (fun acc k => acc + A.elem i k * B.elem k j) 0⟩

/-- A Hermitian `2 × 2` matrix with non-real off-diagonal entries. -/
def hermitianA : Mat Cplx :=
  Mat.ofRows 2 2 [[⟨1, 0⟩, ⟨0, 1⟩], [⟨0, 0 - 1⟩, ⟨1, 0⟩]]

/-- A real diagonal `2 × 2` matrix. -/
def hermitianB : Mat Cplx :=
  Mat.ofRows 2 2 [[⟨1, 0⟩, ⟨0, 0⟩], [⟨0, 0⟩, ⟨2, 0⟩]]

/-! ## Sparse vectors and the sparse-minus-dense expression

The embedding of `blaze/math/expressions/SVecDVecSubExpr.h`.  An operation that
can raise an exception or leave defined behaviour returns `Except Fault`. -/

/-- The ways an operation can fail: the exceptions `std::invalid_argument` and
`std::out_of_range`, and an access that violates a precondition. -/
inductive Fault where
  | invalidArgument : Fault
  | outOfRange : Fault
  | undefinedBehaviour : Fault
deriving DecidableEq, Repr

/-- Modelled from the spec: element access `a[i]` of a sparse vector, the
value stored under index `i` and zero for an "implicit" entry. -/
def SparseVec.get {E : Type} [Zero E] (a : SparseVec E) (i : Nat) : E :=
  match a.elements.find? (fun e => e.1 == i) with
  | some e => e.2
  | none => 0

/-- The invariant of a sparse vector: the stored elements are in strictly
ascending order of their indices and every index is below the size. -/
def SparseVec.WellFormed {E : Type} (a : SparseVec E) : Prop :=
  a.elements.Pairwise (fun e f => e.1 < f.1) ∧ ∀ e ∈ a.elements, e.1 < a.size

/-- The densified vector: all `size` entries, the implicit ones zero. -/
def SparseVec.toDense {E : Type} [Zero E] (a : SparseVec E) : List E :=
  (List.range a.size).map a.get

/-- Class `SVecDVecSubExpr<VT1,VT2,TF>`: the operands `lhs_` (sparse) and `rhs_`
(dense) of the subtraction. -/
structure SVecDVecSubExpr (E : Type) where
  lhs_ : SparseVec E
  rhs_ : List E

/-- Member `size()`: `return lhs_.size();` -/
def SVecDVecSubExpr.size {E : Type} (e : SVecDVecSubExpr E) : Nat := e.lhs_.size

/-- Member `operator[]( index )`:
```
BLAZE_INTERNAL_ASSERT( index < lhs_.size(), "Invalid vector access index" );
return lhs_[index] - rhs_[index];
```
An index that violates the assertion or lies outside the dense operand is an
access without defined behaviour. -/
def SVecDVecSubExpr.get {E : Type} [Sub E] [Zero E] (e : SVecDVecSubExpr E) (index : Nat) :
    Except Fault E :=
  if index < e.lhs_.size then
    match e.rhs_[index]? with
    | some r => Except.ok (e.lhs_.get index - r)
    | none => Except.error Fault.undefinedBehaviour
  else Except.error Fault.undefinedBehaviour

/-- Member `at( index )`:
```
if( index >= lhs_.size() ) {
   BLAZE_THROW_OUT_OF_RANGE( "Invalid vector access index" );
}
return (*this)[index];
```
-/
def SVecDVecSubExpr.atIndex {E : Type} [Sub E] [Zero E] (e : SVecDVecSubExpr E) (index : Nat) :
    Except Fault E :=
  if index ≥ e.lhs_.size then Except.error Fault.outOfRange
  else e.get index

/-- Source function `operator-( const SparseVector<VT1,TF>& lhs, const DenseVector<VT2,TF>& rhs )`:
```
if( (~lhs).size() != (~rhs).size() ) {
   BLAZE_THROW_INVALID_ARGUMENT( "Vector sizes do not match" );
}
return ReturnType( ~lhs, ~rhs );
```
-/
def subSparseDense {E : Type} (lhs : SparseVec E) (rhs : List E) :
    Except Fault (SVecDVecSubExpr E) :=
  if lhs.size ≠ rhs.length then Except.error Fault.invalidArgument
  else Except.ok ⟨lhs, rhs⟩

/-- One in-place update `t[i] = f( t[i] )` of a dense vector. -/
def DenseVector.updateAt {E : Type} (t : List E) (i : Nat) (f : E → E) : List E :=
  match t[i]? with
  | some x => t.set i (f x)
  | none => t

/-- The dense expression `-v`, elementwise. -/
def DenseVector.neg {E : Type} [Neg E] (v : List E) : List E := v.map fun x => -x

/-- Modelled from the spec: the kernel `assign( t, v )` for dense `t` and `v`:
every `t[i]` is overwritten with `v[i]`. -/
def DenseVector.assign {E : Type} (t v : List E) : List E :=
  List.zipWith (fun _ x => x) t v

/-- Modelled from the spec: the kernel `addAssign( t, v )` for dense `t` and
`v`: `t[i] += v[i]`. -/
def DenseVector.addAssign {E : Type} [Add E] (t v : List E) : List E :=
  List.zipWith (fun x y => x + y) t v

/-- Modelled from the spec: the kernel `subAssign( t, v )` for dense `t` and
`v`: `t[i] -= v[i]`. -/
def DenseVector.subAssign {E : Type} [Sub E] (t v : List E) : List E :=
  List.zipWith (fun x y => x - y) t v

/-- Modelled from the spec: the kernel `addAssign( t, a )` for dense `t` and
sparse `a`: for every stored element of `a`, in order,
`t[element.index()] += element.value()`. -/
def DenseVector.addAssignSparse {E : Type} [Add E] (t : List E) (a : SparseVec E) : List E :=
  a.elements.foldl (fun acc e => DenseVector.updateAt acc e.1 (fun x => x + e.2)) t

/-- Modelled from the spec: the kernel `subAssign( t, a )` for dense `t` and
sparse `a`: for every stored element of `a`, in order,
`t[element.index()] -= element.value()`. -/
def DenseVector.subAssignSparse {E : Type} [Sub E] (t : List E) (a : SparseVec E) : List E :=
  a.elements.foldl (fun acc e => DenseVector.updateAt acc e.1 (fun x => x - e.2)) t

/-- Friend `assign( DenseVector<VT,TF>& lhs, const SVecDVecSubExpr& rhs )`:
```
assign   ( ~lhs, -rhs.rhs_ );
addAssign( ~lhs,  rhs.lhs_ );
```
The result is the target after the call. -/
def SVecDVecSubExpr.assign {E : Type} [Neg E] [Add E] (lhs : List E) (rhs : SVecDVecSubExpr E) :
    List E :=
  DenseVector.addAssignSparse (DenseVector.assign lhs (DenseVector.neg rhs.rhs_)) rhs.lhs_

/-- Friend `addAssign( DenseVector<VT,TF>& lhs, const SVecDVecSubExpr& rhs )`:
```
subAssign( ~lhs, rhs.rhs_ );
addAssign( ~lhs, rhs.lhs_ );
```
-/
def SVecDVecSubExpr.addAssign {E : Type} [Add E] [Sub E] (lhs : List E)
    (rhs : SVecDVecSubExpr E) : List E :=
  DenseVector.addAssignSparse (DenseVector.subAssign lhs rhs.rhs_) rhs.lhs_

/-- Friend `subAssign( DenseVector<VT,TF>& lhs, const SVecDVecSubExpr& rhs )`:
```
addAssign( ~lhs, rhs.rhs_ );
subAssign( ~lhs, rhs.lhs_ );
```
-/
def SVecDVecSubExpr.subAssign {E : Type} [Add E] [Sub E] (lhs : List E)
    (rhs : SVecDVecSubExpr E) : List E :=
  DenseVector.subAssignSparse (DenseVector.addAssign lhs rhs.rhs_) rhs.lhs_

/-- Modelled from the spec: the operator `x - y` on dense vectors, which
rejects operands of different sizes ("Dimension mismatch [...] rejected before
any evaluation") and has the elements `x[i] - y[i]`. -/
def DenseVector.sub {E : Type} [Sub E] (x y : List E) : Except Fault (List E) :=
  if x.length ≠ y.length then Except.error Fault.invalidArgument
  else Except.ok (List.zipWith (fun p q => p - q) x y)

/-- Modelled from the spec: the operator `x + y` on dense vectors, with the
elements `x[i] + y[i]`. -/
def DenseVector.add {E : Type} [Add E] (x y : List E) : Except Fault (List E) :=
  if x.length ≠ y.length then Except.error Fault.invalidArgument
  else Except.ok (List.zipWith (fun p q => p + q) x y)

/-- Modelled from the spec: the operator `x + a` for dense `x` and sparse `a`,
with the elements `x[i] + a[i]`. -/
def DenseVector.addSparse {E : Type} [Add E] [Zero E] (x : List E) (a : SparseVec E) :
    Except Fault (List E) :=
  if x.length ≠ a.size then Except.error Fault.invalidArgument
  else Except.ok (List.zipWith (fun p q => p + q) x a.toDense)

/-- Source function `operator+( const SVecDVecSubExpr<VT1,VT2,TF>& lhs, const DenseVector<VT3,TF>& rhs )`:
```
return ( (~rhs) - lhs.rightOperand() ) + lhs.leftOperand();
```
The value is the list of the elements of the resulting expression. -/
def SVecDVecSubExpr.plusDense {E : Type} [Add E] [Sub E] [Zero E] (lhs : SVecDVecSubExpr E)
    (rhs : List E) : Except Fault (List E) :=
  match DenseVector.sub rhs lhs.rhs_ with
  | Except.ok x => DenseVector.addSparse x lhs.lhs_
  | Except.error f => Except.error f

/-- Source function `operator-( const SVecDVecSubExpr<VT1,VT2,TF>& lhs, const DenseVector<VT3,TF>& rhs )`:
```
return lhs.leftOperand() - ( lhs.rightOperand() + (~rhs) );
```
-/
def SVecDVecSubExpr.minusDense {E : Type} [Add E] (lhs : SVecDVecSubExpr E) (rhs : List E) :
    Except Fault (SVecDVecSubExpr E) :=
  match DenseVector.add lhs.rhs_ rhs with
  | Except.ok y => subSparseDense lhs.lhs_ y
  | Except.error f => Except.error f

/-- A sparse vector of size 4 with the stored elements `a[1] = 5`, `a[3] = 7`. -/
def sparseA : SparseVec Int := ⟨4, [(1, 5), (3, 7)]⟩

/-- A dense vector of size 4. -/
def denseB : List Int := [1, 2, 3, 4]

/-- A dense target of size 4. -/
def denseT : List Int := [10, 20, 30, 40]

/-! ## Row views of matrix expressions

The embedding of the restructuring `row` functions of
`blaze/math/views/Row.h`. -/

/-- A matrix expression: a plain matrix (neither a computation nor a
transposition), a matrix/matrix addition, subtraction or multiplication with
its `leftOperand()` and `rightOperand()`, or the outer product of a column
vector and a row vector. -/
inductive MatExpr (E : Type) where
  | plain : Mat E → MatExpr E
  | matMatAdd : MatExpr E → MatExpr E → MatExpr E
  | matMatSub : MatExpr E → MatExpr E → MatExpr E
  | matMatMult : MatExpr E → MatExpr E → MatExpr E
  | vecTVecMult : List E → List E → MatExpr E

/-- Modelled from the spec: the outer product `u * trans(v)`, the matrix with
the entries `u[i] * v[j]`. -/
def Mat.outer {E : Type} [Mul E] [Zero E] (u v : List E) : Mat E :=
  ⟨u.length, v.length, fun i j => u.getD i 0 * v.getD j 0⟩

/-- The matrix a matrix expression evaluates to. -/
def MatExpr.eval {E : Type} [Add E] [Sub E] [Mul E] [Zero E] : MatExpr E → Mat E
  | MatExpr.plain m => m
  | MatExpr.matMatAdd l r => Mat.add l.eval r.eval
  | MatExpr.matMatSub l r => Mat.sub l.eval r.eval
  | MatExpr.matMatMult l r => Mat.mult l.eval r.eval
  | MatExpr.vecTVecMult u v => Mat.outer u v

/-- The row `index` of a matrix as a row vector. -/
def Mat.row {E : Type} (m : Mat E) (index : Nat) : List E :=
  (List.range m.columns).map fun j => m.elem index j

/-- Modelled from the spec: the product `x * B` of a row vector and a matrix,
which rejects operands of non-matching sizes and has the elements
`sum over k of x[k] * B(k,j)`. -/
def rowTimesMatrix {E : Type} [Add E] [Mul E] [Zero E] (x : List E) (B : Mat E) :
    Except Fault (List E) :=
  if x.length ≠ B.rows then Except.error Fault.invalidArgument
  else Except.ok ((List.range B.columns).map fun j =>
    (List.range x.length).foldl (fun acc k => acc + x.getD k 0 * B.elem k j) 0)

/-- The overloads of `row( matrix, index )`.  For a plain matrix the function
creates the row view (`RowExprTrait_<MT>( ~matrix, index )`, which raises
`std::invalid_argument` for an invalid row index); the restructuring overloads
are
```
return row( (~matrix).leftOperand(), index ) + row( (~matrix).rightOperand(), index );
return row( (~matrix).leftOperand(), index ) - row( (~matrix).rightOperand(), index );
return row( (~matrix).leftOperand(), index ) * (~matrix).rightOperand();
return (~matrix).leftOperand()[index] * (~matrix).rightOperand();
```
for an addition, a subtraction, a multiplication and an outer product.  The
value is the list of the elements of the resulting row vector. -/
def row {E : Type} [Add E] [Sub E] [Mul E] [Zero E] : MatExpr E → Nat → Except Fault (List E)
  | MatExpr.plain m, index =>
    if index < m.rows then Except.ok (m.row index) else Except.error Fault.invalidArgument
  | MatExpr.matMatAdd l r, index =>
    match row l index, row r index with
    | Except.ok x, Except.ok y => DenseVector.add x y
    | Except.error f, _ => Except.error f
    | _, Except.error f => Except.error f
  | MatExpr.matMatSub l r, index =>
    match row l index, row r index with
    | Except.ok x, Except.ok y => DenseVector.sub x y
    | Except.error f, _ => Except.error f
    | _, Except.error f => Except.error f
  | MatExpr.matMatMult l r, index =>
    match row l index with
    | Except.ok x => rowTimesMatrix x r.eval
    | Except.error f => Except.error f
  | MatExpr.vecTVecMult u v, index =>
    match u[index]? with
    | some s => Except.ok (v.map fun y => s * y)
    | none => Except.error Fault.undefinedBehaviour

/-! ## The local constants of the block predicate and the guards of the vector predicates -/

/-- The constant `lower( row > column )` of the block `tryAssign`. -/
def tryAssignMatrix.lower (row column : Nat) : Bool := decide (row > column)

/-- The constant `size( min( row + M, column + N ) - ( lower ? row : column ) )`
of the block `tryAssign`. -/
def tryAssignMatrix.size {E : Type} (rhs : Mat E) (row column : Nat) : Nat :=
  usub (min (uadd row rhs.rows) (uadd column rhs.columns))
    (if tryAssignMatrix.lower row column then row else column)

/-- The constant `subrow( lower ? 0UL : column - row )` of the block `tryAssign`. -/
def tryAssignMatrix.subrow (row column : Nat) : Nat :=
  if tryAssignMatrix.lower row column then 0 else usub column row

/-- The constant `subcol( lower ? row - column : 0UL )` of the block `tryAssign`. -/
def tryAssignMatrix.subcol (row column : Nat) : Nat :=
  if tryAssignMatrix.lower row column then usub row column else 0

/-- An operation on `size_t` values or on a vector that an evaluation
performs: the subtraction `a - b`, or the access `v[index]` to a vector of
`size` elements. -/
inductive Operation where
  | subtract : (a b : Nat) → Operation
  | access : (index size : Nat) → Operation
deriving DecidableEq, Repr

/-- An operation that is safe: a subtraction that does not wrap around, an
access below the size of the vector. -/
def Operation.safe : Operation → Prop
  | Operation.subtract a b => b ≤ a
  | Operation.access index size => index < size

/-- The return expression of the column-vector `tryAssign`,
```
IsBuiltin_v<ET> || column < row || (~rhs).size() <= column - row || isReal( (~rhs)[column-row] )
```
evaluated left to right with short-circuiting, together with the subtractions
and the element accesses the evaluation performs, in order. -/
def tryAssignColumnVector.traced {E : Type} [Element E] (rhs : List E) (row column : Nat) :
    Option Bool × List Operation :=
  if Element.isBuiltin E then (some true, [])
  else if column < row then (some true, [])
  else if rhs.length ≤ usub column row then (some true, [Operation.subtract column row])
  else ((rhs[usub column row]?).map Element.isReal,
    [Operation.subtract column row, Operation.subtract column row,
      Operation.access (usub column row) rhs.length])

/-- The return expression of the row-vector `tryAssign`,
```
IsBuiltin_v<ET> || row < column || (~rhs).size() <= row - column || isReal( (~rhs)[row-column] )
```
with the subtractions and the element accesses its evaluation performs. -/
def tryAssignRowVector.traced {E : Type} [Element E] (rhs : List E) (row column : Nat) :
    Option Bool × List Operation :=
  if Element.isBuiltin E then (some true, [])
  else if row < column then (some true, [])
  else if rhs.length ≤ usub row column then (some true, [Operation.subtract row column])
  else ((rhs[usub row column]?).map Element.isReal,
    [Operation.subtract row column, Operation.subtract row column,
      Operation.access (usub row column) rhs.length])

/-- A backing inversion that fails on every matrix (as for a singular matrix)
after it has overwritten its operand with zeros. -/
def failingBackend (_flag : InversionFlag) (m : Mat Int) : Inverted Int :=
  ⟨false, ⟨m.rows, m.columns, fun _ _ => 0⟩⟩

/-- The Hermitian `2 × 2` integer matrix with the rows `(2, 1)` and `(1, 3)`. -/
def hermitianInt : HermitianMatrix Int :=
  ⟨⟨2, 2, fun i j => if i = j then (if i = 0 then 2 else 3) else 1⟩⟩

/-- A `2 × 3` integer matrix. -/
def matP : Mat Int := ⟨2, 3, fun i j => (i : Int) + 2 * j + 1⟩

/-- A `3 × 2` integer matrix. -/
def matQ : Mat Int := ⟨3, 2, fun i j => 3 * (i : Int) - j⟩

/-- A sparse complex vector of size 3 whose only stored element is `a[1] = i`. -/
def sparseImaginary : SparseVec Cplx := ⟨3, [(1, Cplx.I)]⟩

instance : LawfulElement Cplx where
  conj_conj := by
    intro x
    cases x
    simp [Element.conj]
  isReal_iff := by
    intro x
    cases x with
    | mk re im =>
      simp only [Element.isReal, Element.conj, decide_eq_true_eq, Cplx.mk.injEq, true_and]
      omega
  builtin_isReal := by
    intro h
    cases h

instance : LawfulElement Int where
  conj_conj := fun _ => rfl
  isReal_iff := fun _ => ⟨fun _ => rfl, fun _ => rfl⟩
  builtin_isReal := fun _ _ => rfl


instance : LawfulArith Cplx where
  conj_add := by
    intro x y
    show (⟨x.re + y.re, -(x.im + y.im)⟩ : Cplx) = ⟨x.re + y.re, -x.im + -y.im⟩
    congr 1
    omega
  conj_sub := by
    intro x y
    show (⟨x.re - y.re, -(x.im - y.im)⟩ : Cplx) = ⟨x.re - y.re, -x.im - -y.im⟩
    congr 1
    omega
  conj_mul := by
    intro x y
    show (⟨x.re * y.re - x.im * y.im, -(x.re * y.im + x.im * y.re)⟩ : Cplx) =
      ⟨x.re * y.re - -x.im * -y.im, x.re * -y.im + -x.im * y.re⟩
    congr 1 <;> ring
  conj_div := by
    intro x y
    show (⟨(x.re * y.re + x.im * y.im).tdiv (y.re * y.re + y.im * y.im),
        -((x.im * y.re - x.re * y.im).tdiv (y.re * y.re + y.im * y.im))⟩ : Cplx) =
      ⟨(x.re * y.re + -x.im * -y.im).tdiv (y.re * y.re + -y.im * -y.im),
        (-x.im * y.re - x.re * -y.im).tdiv (y.re * y.re + -y.im * -y.im)⟩
    have h1 : x.re * y.re + -x.im * -y.im = x.re * y.re + x.im * y.im := by ring
    have h2 : y.re * y.re + -y.im * -y.im = y.re * y.re + y.im * y.im := by ring
    have h3 : -x.im * y.re - x.re * -y.im = -(x.im * y.re - x.re * y.im) := by ring
    rw [h1, h2, h3, Int.neg_tdiv]
  conj_zero := by decide
  conj_one := by decide
  mul_zero := by
    intro x
    show (⟨x.re * 0 - x.im * 0, x.re * 0 + x.im * 0⟩ : Cplx) = ⟨0, 0⟩
    simp
  zero_mul := by
    intro x
    show (⟨0 * x.re - 0 * x.im, 0 * x.im + 0 * x.re⟩ : Cplx) = ⟨0, 0⟩
    simp
  mul_one := by
    intro x
    show (⟨x.re * 1 - x.im * 0, x.re * 0 + x.im * 1⟩ : Cplx) = x
    cases x
    simp
  one_mul := by
    intro x
    show (⟨1 * x.re - 0 * x.im, 1 * x.im + 0 * x.re⟩ : Cplx) = x
    cases x
    simp

instance : LawfulArith Int where
  conj_add := fun _ _ => rfl
  conj_sub := fun _ _ => rfl
  conj_mul := fun _ _ => rfl
  conj_div := fun _ _ => rfl
  conj_zero := rfl
  conj_one := rfl
  mul_zero := Int.mul_zero
  zero_mul := Int.zero_mul
  mul_one := Int.mul_one
  one_mul := Int.one_mul

/-! ## Auxiliary facts -/

/-- A guarded `size_t` subtraction does not wrap: it is the difference. -/
theorem usub_eq_sub {a b : Nat} (hb : b ≤ a) (ha : a < sizeMod) : usub a b = a - b := by
  unfold usub
  have h : a + sizeMod - b = (a - b) + sizeMod := by omega
  rw [h, Nat.add_mod_right]
  exact Nat.mod_eq_of_lt (by omega)

/-- A `size_t` addition whose sum fits does not wrap. -/
theorem uadd_eq_add {a b : Nat} (h : a + b < sizeMod) : uadd a b = a + b :=
  Nat.mod_eq_of_lt h

/-- A `return` statement decides the result of the body, whatever follows it. -/
theorem Flow.result_seq_ret {α : Type} (v : Option α) (k : Flow (Option α)) :
    (Flow.seq (Flow.ret v) k).result = v := rfl

/-- The Hermitian scan as a proposition. -/
theorem isHermitian_iff {E : Type} [Element E] [DecidableEq E] (m : Mat E) :
    isHermitian m = true ↔
      m.rows = m.columns ∧
        ∀ i, i < m.rows → ∀ j, j < m.columns → m.elem i j = Element.conj (m.elem j i) := by
  simp [isHermitian]

/-- The block predicate in terms of the positions of the target: when the
index sums fit into `size_t`, it accepts exactly when the block misses the
diagonal, covers fewer than two diagonal positions, or has a Hermitian overlap
sub-block. -/
theorem tryAssignMatrix_eq {E : Type} [Element E] [DecidableEq E] (lhs : HermitianMatrix E)
    (rhs : Mat E) (row column : Nat) (hr : row + rhs.rows < sizeMod)
    (hc : column + rhs.columns < sizeMod) :
    tryAssignMatrix lhs rhs row column =
      some (decide (row + rhs.rows ≤ column ∨ column + rhs.columns ≤ row) ||
        decide (overlapSize rhs row column < 2) || isHermitian (overlap rhs row column)) := by
  unfold tryAssignMatrix
  simp only [uadd_eq_add hr, uadd_eq_add hc]
  by_cases hearly : row + rhs.rows ≤ column ∨ column + rhs.columns ≤ row
  · simp [hearly]
  · have h1 : column < row + rhs.rows := by omega
    have h2 : row < column + rhs.columns := by omega
    rw [if_neg hearly]
    by_cases hl : row > column
    · have hsz : usub (min (row + rhs.rows) (column + rhs.columns)) row =
          overlapSize rhs row column := by
        rw [usub_eq_sub (by omega) (by omega)]
        simp only [overlapSize, diagEnd, diagFirst]
        omega
      simp only [hl, decide_True, if_true, hsz]
      by_cases hs : overlapSize rhs row column < 2
      · simp [hs]
      · have hsub : usub row column = row - column := usub_eq_sub (by omega) (by omega)
        have hle : overlapSize rhs row column ≤ rhs.rows ∧
            row - column + overlapSize rhs row column ≤ rhs.columns := by
          simp only [overlapSize, diagEnd, diagFirst]
          omega
        have hfit : uadd 0 (overlapSize rhs row column) ≤ rhs.rows ∧
            uadd (row - column) (overlapSize rhs row column) ≤ rhs.columns := by
          rw [uadd_eq_add (by omega), uadd_eq_add (by omega)]
          omega
        simp only [hs, if_false, hsub, submatrix, hfit, and_self, if_true, Option.map_some',
          hearly, decide_False, Bool.false_or]
        congr 1
        rw [Bool.eq_iff_iff, isHermitian_iff, isHermitian_iff]
        simp only [overlap, true_and]
        constructor
        · intro h i hi j hj
          have := h i hi j hj
          rw [uadd_eq_add (by omega), uadd_eq_add (by omega), uadd_eq_add (by omega),
            uadd_eq_add (by omega)] at this
          have e1 : diagFirst row column + i - row = 0 + i := by
            simp only [diagFirst]; omega
          have e2 : diagFirst row column + j - column = row - column + j := by
            simp only [diagFirst]; omega
          have e3 : diagFirst row column + j - row = 0 + j := by
            simp only [diagFirst]; omega
          have e4 : diagFirst row column + i - column = row - column + i := by
            simp only [diagFirst]; omega
          rw [e1, e2, e3, e4]
          exact this
        · intro h i hi j hj
          have := h i hi j hj
          rw [uadd_eq_add (by omega), uadd_eq_add (by omega), uadd_eq_add (by omega),
            uadd_eq_add (by omega)]
          have e1 : diagFirst row column + i - row = 0 + i := by
            simp only [diagFirst]; omega
          have e2 : diagFirst row column + j - column = row - column + j := by
            simp only [diagFirst]; omega
          have e3 : diagFirst row column + j - row = 0 + j := by
            simp only [diagFirst]; omega
          have e4 : diagFirst row column + i - column = row - column + i := by
            simp only [diagFirst]; omega
          rw [e1, e2, e3, e4] at this
          exact this
    · have hsz : usub (min (row + rhs.rows) (column + rhs.columns)) column =
          overlapSize rhs row column := by
        rw [usub_eq_sub (by omega) (by omega)]
        simp only [overlapSize, diagEnd, diagFirst]
        omega
      simp only [hl, decide_False, if_false, hsz, Bool.false_eq_true]
      by_cases hs : overlapSize rhs row column < 2
      · simp [hs]
      · have hsub : usub column row = column - row := usub_eq_sub (by omega) (by omega)
        have hle : column - row + overlapSize rhs row column ≤ rhs.rows ∧
            overlapSize rhs row column ≤ rhs.columns := by
          simp only [overlapSize, diagEnd, diagFirst]
          omega
        have hfit : uadd (column - row) (overlapSize rhs row column) ≤ rhs.rows ∧
            uadd 0 (overlapSize rhs row column) ≤ rhs.columns := by
          rw [uadd_eq_add (by omega), uadd_eq_add (by omega)]
          omega
        simp only [hs, if_false, hsub, submatrix, hfit, and_self, if_true, Option.map_some',
          hearly, decide_False, Bool.false_or]
        congr 1
        rw [Bool.eq_iff_iff, isHermitian_iff, isHermitian_iff]
        simp only [overlap, true_and]
        constructor
        · intro h i hi j hj
          have := h i hi j hj
          rw [uadd_eq_add (by omega), uadd_eq_add (by omega), uadd_eq_add (by omega),
            uadd_eq_add (by omega)] at this
          have e1 : diagFirst row column + i - row = column - row + i := by
            simp only [diagFirst]; omega
          have e2 : diagFirst row column + j - column = 0 + j := by
            simp only [diagFirst]; omega
          have e3 : diagFirst row column + j - row = column - row + j := by
            simp only [diagFirst]; omega
          have e4 : diagFirst row column + i - column = 0 + i := by
            simp only [diagFirst]; omega
          rw [e1, e2, e3, e4]
          exact this
        · intro h i hi j hj
          have := h i hi j hj
          rw [uadd_eq_add (by omega), uadd_eq_add (by omega), uadd_eq_add (by omega),
            uadd_eq_add (by omega)]
          have e1 : diagFirst row column + i - row = column - row + i := by
            simp only [diagFirst]; omega
          have e2 : diagFirst row column + j - column = 0 + j := by
            simp only [diagFirst]; omega
          have e3 : diagFirst row column + j - row = column - row + j := by
            simp only [diagFirst]; omega
          have e4 : diagFirst row column + i - column = 0 + i := by
            simp only [diagFirst]; omega
          rw [e1, e2, e3, e4] at this
          exact this

/-! ## Single elements -/

/-- C1: `trySet` returns true exactly when the position is off the diagonal or
the value is real, and false exactly when a non-real value is aimed at the
diagonal; for a complex value on the diagonal, "real" means that the imaginary
part is zero, so the value zero is accepted. -/
theorem trySet_true_iff {E : Type} [Element E] (mat : HermitianMatrix E) (i j : Nat) (v : E) :
    (trySet mat i j v = some true ↔ (i ≠ j ∨ Element.isReal v = true)) ∧
    (trySet mat i j v = some false ↔ (i = j ∧ Element.isReal v = false)) ∧
    (∀ (m : HermitianMatrix Cplx) (z : Cplx), trySet m i i z = some true ↔ z.im = 0) ∧
    (∀ m : HermitianMatrix Cplx, trySet m i i (⟨0, 0⟩ : Cplx) = some true) := by
  refine ⟨?_, ?_, ?_, ?_⟩
  · by_cases h : i = j <;> simp [trySet, h]
  · by_cases h : i = j <;> simp [trySet, h]
  · intro m z
    simp [trySet, Element.isReal]
  · intro m
    simp [trySet, Element.isReal]

/-! ## Slices -/

/-- The condition under which the column-vector predicate accepts. -/
theorem tryAssignColumnVector_iff {E : Type} [Element E] (lhs : HermitianMatrix E)
    (rhs : List E) (row column : Nat) (hc : column < sizeMod) :
    tryAssignColumnVector lhs rhs row column = some true ↔
      (Element.isBuiltin E = true ∨ column < row ∨ rhs.length ≤ column - row ∨
        ∃ v, rhs[column - row]? = some v ∧ Element.isReal v = true) := by
  unfold tryAssignColumnVector tryAssignColumnVector.first
  rw [Flow.result_seq_ret]
  by_cases hb : Element.isBuiltin E = true
  · simp [hb]
  · by_cases hlt : column < row
    · simp [hb, hlt]
    · have hu : usub column row = column - row := usub_eq_sub (by omega) hc
      rw [hu]
      by_cases hn : rhs.length ≤ column - row
      · simp [hb, hlt, hn]
      · have hlt2 : column - row < rhs.length := by omega
        simp [hb, hlt, hn, List.getElem?_eq_getElem hlt2]

/-- The condition under which the row-vector predicate accepts. -/
theorem tryAssignRowVector_iff {E : Type} [Element E] (lhs : HermitianMatrix E)
    (rhs : List E) (row column : Nat) (hr : row < sizeMod) :
    tryAssignRowVector lhs rhs row column = some true ↔
      (Element.isBuiltin E = true ∨ row < column ∨ rhs.length ≤ row - column ∨
        ∃ v, rhs[row - column]? = some v ∧ Element.isReal v = true) := by
  unfold tryAssignRowVector tryAssignRowVector.first
  rw [Flow.result_seq_ret]
  by_cases hb : Element.isBuiltin E = true
  · simp [hb]
  · by_cases hlt : row < column
    · simp [hb, hlt]
    · have hu : usub row column = row - column := usub_eq_sub (by omega) hr
      rw [hu]
      by_cases hn : rhs.length ≤ row - column
      · simp [hb, hlt, hn]
      · have hlt2 : row - column < rhs.length := by omega
        simp [hb, hlt, hn, List.getElem?_eq_getElem hlt2]

/-- The column-vector predicate reads its operand within bounds only and
returns a Boolean. -/
theorem tryAssignColumnVector_returns {E : Type} [Element E] (lhs : HermitianMatrix E)
    (rhs : List E) (row column : Nat) : ∃ b, tryAssignColumnVector lhs rhs row column = some b := by
  unfold tryAssignColumnVector tryAssignColumnVector.first
  rw [Flow.result_seq_ret]
  by_cases hb : Element.isBuiltin E = true
  · exact ⟨true, by simp [hb]⟩
  · by_cases hlt : column < row
    · exact ⟨true, by simp [hb, hlt]⟩
    · by_cases hn : rhs.length ≤ usub column row
      · exact ⟨true, by simp [hb, hlt, hn]⟩
      · have hlt2 : usub column row < rhs.length := by omega
        exact ⟨Element.isReal rhs[usub column row], by
          simp [hb, hlt, hn, List.getElem?_eq_getElem hlt2]⟩

/-- The row-vector predicate reads its operand within bounds only and returns a
Boolean. -/
theorem tryAssignRowVector_returns {E : Type} [Element E] (lhs : HermitianMatrix E)
    (rhs : List E) (row column : Nat) : ∃ b, tryAssignRowVector lhs rhs row column = some b := by
  unfold tryAssignRowVector tryAssignRowVector.first
  rw [Flow.result_seq_ret]
  by_cases hb : Element.isBuiltin E = true
  · exact ⟨true, by simp [hb]⟩
  · by_cases hlt : row < column
    · exact ⟨true, by simp [hb, hlt]⟩
    · by_cases hn : rhs.length ≤ usub row column
      · exact ⟨true, by simp [hb, hlt, hn]⟩
      · have hlt2 : usub row column < rhs.length := by omega
        exact ⟨Element.isReal rhs[usub row column], by
          simp [hb, hlt, hn, List.getElem?_eq_getElem hlt2]⟩

/-- C5: the column-vector `tryAssign` returns true exactly when the element
type is built-in, or no element of the slice lands on the diagonal
(`column < row` or `n <= column - row`), or the element with index
`column - row` is real; the row-vector `tryAssign` likewise with `row - column`.
Both always return a Boolean, and the result is that of the first `return`
statement whatever statement follows it. -/
theorem tryAssignVector_decided {E : Type} [Element E] (lhs : HermitianMatrix E) (rhs : List E)
    (row column : Nat) :
    (column < sizeMod →
      (tryAssignColumnVector lhs rhs row column = some true ↔
        (Element.isBuiltin E = true ∨ column < row ∨ rhs.length ≤ column - row ∨
          ∃ v, rhs[column - row]? = some v ∧ Element.isReal v = true))) ∧
    (row < sizeMod →
      (tryAssignRowVector lhs rhs row column = some true ↔
        (Element.isBuiltin E = true ∨ row < column ∨ rhs.length ≤ row - column ∨
          ∃ v, rhs[row - column]? = some v ∧ Element.isReal v = true))) ∧
    (∃ b, tryAssignColumnVector lhs rhs row column = some b) ∧
    (∃ b, tryAssignRowVector lhs rhs row column = some b) ∧
    (∀ k, (Flow.seq (tryAssignColumnVector.first rhs row column) k).result =
        tryAssignColumnVector lhs rhs row column) ∧
    (∀ k, (Flow.seq (tryAssignRowVector.first rhs row column) k).result =
        tryAssignRowVector lhs rhs row column) :=
  ⟨tryAssignColumnVector_iff lhs rhs row column, tryAssignRowVector_iff lhs rhs row column,
    tryAssignColumnVector_returns lhs rhs row column, tryAssignRowVector_returns lhs rhs row column,
    fun _ => rfl, fun _ => rfl⟩

/-- The column vector `[1, i]` written at `(0, 1)` puts `i` on the diagonal
position `(1,1)` and is rejected. -/
theorem tryAssignVector_decided_witness :
    (1 < sizeMod) ∧
    (tryAssignColumnVector (zeroHermitian 3) [⟨1, 0⟩, Cplx.I] 0 1 = some true ↔
      (Element.isBuiltin Cplx = true ∨ 1 < 0 ∨ [(⟨1, 0⟩ : Cplx), Cplx.I].length ≤ 1 - 0 ∨
        ∃ v, [(⟨1, 0⟩ : Cplx), Cplx.I][1 - 0]? = some v ∧ Element.isReal v = true)) ∧
    tryAssignColumnVector (zeroHermitian 3) [⟨1, 0⟩, Cplx.I] 0 1 = some false :=
  ⟨by decide, (tryAssignVector_decided (zeroHermitian 3) [⟨1, 0⟩, Cplx.I] 0 1).1 (by decide),
    by decide⟩

/-- C6 (as stated, refuted): a row vector `[1, i]` written at `(0, 1)` is
accepted although its value at offset `column - row = 1` is not real, and the
column vector `[1, i]` written at `(1, 0)` is accepted although its value at
offset `row - column = 1` is not real. -/
theorem tryAssignVector_offsets_swapped :
    tryAssignRowVector (zeroHermitian 3) [⟨1, 0⟩, Cplx.I] 0 1 = some true ∧
    ([(⟨1, 0⟩ : Cplx), Cplx.I][1 - 0]?).map Element.isReal = some false ∧
    tryAssignColumnVector (zeroHermitian 3) [⟨1, 0⟩, Cplx.I] 1 0 = some true := by
  decide

/-- C6 (amended): for a non-built-in element type, a column vector written at
`(row, column)` whose element with index `d = column - row` exists
(`row <= column`, `d < n`) is accepted exactly when that element is real, and a
row vector whose element with index `d = row - column` exists is accepted
exactly when that element is real. -/
theorem tryAssignVector_requires_real {E : Type} [Element E] (lhs : HermitianMatrix E)
    (rhs : List E) (row column : Nat) (v : E) (hb : Element.isBuiltin E = false) :
    (column < sizeMod → row ≤ column → rhs[column - row]? = some v →
      (tryAssignColumnVector lhs rhs row column = some true ↔ Element.isReal v = true)) ∧
    (row < sizeMod → column ≤ row → rhs[row - column]? = some v →
      (tryAssignRowVector lhs rhs row column = some true ↔ Element.isReal v = true)) := by
  constructor
  · intro hc hle hv
    have hlen : column - row < rhs.length := by
      rcases List.getElem?_eq_some.mp hv with ⟨h, _⟩
      exact h
    rw [tryAssignColumnVector_iff lhs rhs row column hc]
    constructor
    · rintro (h | h | h | ⟨w, hw, hreal⟩)
      · rw [hb] at h; cases h
      · omega
      · omega
      · rw [hv] at hw
        cases hw
        exact hreal
    · intro h
      exact Or.inr (Or.inr (Or.inr ⟨v, hv, h⟩))
  · intro hr hle hv
    have hlen : row - column < rhs.length := by
      rcases List.getElem?_eq_some.mp hv with ⟨h, _⟩
      exact h
    rw [tryAssignRowVector_iff lhs rhs row column hr]
    constructor
    · rintro (h | h | h | ⟨w, hw, hreal⟩)
      · rw [hb] at h; cases h
      · omega
      · omega
      · rw [hv] at hw
        cases hw
        exact hreal
    · intro h
      exact Or.inr (Or.inr (Or.inr ⟨v, hv, h⟩))

/-- The column vector `[1, i]` at `(0, 1)` and the row vector `[1, 2]` at
`(1, 0)`: each is accepted exactly when its diagonal element is real. -/
theorem tryAssignVector_requires_real_witness :
    (tryAssignColumnVector (zeroHermitian 3) [⟨1, 0⟩, Cplx.I] 0 1 = some true ↔
      Element.isReal Cplx.I = true) ∧
    (tryAssignRowVector (zeroHermitian 3) [⟨1, 0⟩, ⟨2, 0⟩] 1 0 = some true ↔
      Element.isReal (⟨2, 0⟩ : Cplx) = true) :=
  ⟨(tryAssignVector_requires_real (zeroHermitian 3) [⟨1, 0⟩, Cplx.I] 0 1 Cplx.I rfl).1
      (by decide) (by decide) (by decide),
    (tryAssignVector_requires_real (zeroHermitian 3) [⟨1, 0⟩, ⟨2, 0⟩] 1 0 ⟨2, 0⟩ rfl).2
      (by decide) (by decide) (by decide)⟩

/-! ## Bands -/

/-- The dense band loop falls through exactly when every element is real. -/
theorem denseBandLoop_eq {E : Type} [Element E] (rhs : List E) :
    tryAssignDenseBand.loop rhs =
      if ∀ x ∈ rhs, Element.isReal x = true then Flow.next else Flow.ret (some false) := by
  induction rhs with
  | nil => simp [tryAssignDenseBand.loop]
  | cons x xs ih =>
    unfold tryAssignDenseBand.loop
    by_cases hx : Element.isReal x = true
    · rw [ih]
      simp only [List.forall_mem_cons, hx, true_and, Bool.not_true, Bool.false_eq_true, if_false]
    · have hn : ¬ ∀ y ∈ x :: xs, Element.isReal y = true := fun h =>
        hx (h x (List.mem_cons_self x xs))
      rw [if_neg hn]
      simp [hx]

/-- The sparse band loop falls through exactly when every stored element is
real. -/
theorem sparseBandLoop_eq {E : Type} [Element E] (es : List (Nat × E)) :
    tryAssignSparseBand.loop es =
      if ∀ e ∈ es, Element.isReal e.2 = true then Flow.next else Flow.ret (some false) := by
  induction es with
  | nil => simp [tryAssignSparseBand.loop]
  | cons x xs ih =>
    unfold tryAssignSparseBand.loop
    by_cases hx : Element.isReal x.2 = true
    · rw [ih]
      simp only [List.forall_mem_cons, hx, true_and, Bool.not_true, Bool.false_eq_true, if_false]
    · have hn : ¬ ∀ y ∈ x :: xs, Element.isReal y.2 = true := fun h =>
        hx (h x (List.mem_cons_self x xs))
      rw [if_neg hn]
      simp [hx]

/-- The result of the dense band predicate. -/
theorem tryAssignDenseBand_eq {E : Type} [Element E] (lhs : HermitianMatrix E) (rhs : List E)
    (band : Int) (row column : Nat) :
    tryAssignDenseBand lhs rhs band row column =
      some (decide (band ≠ 0 ∨ ∀ x ∈ rhs, Element.isReal x = true)) := by
  unfold tryAssignDenseBand
  rw [denseBandLoop_eq]
  by_cases hb : band = 0
  · by_cases hall : ∀ x ∈ rhs, Element.isReal x = true
    · rw [if_pos hb, if_pos hall]
      simp only [Flow.seq, Flow.result, hb, ne_eq, not_true_eq_false, false_or,
        decide_eq_true hall]
    · rw [if_pos hb, if_neg hall]
      simp only [Flow.seq, Flow.result, hb, ne_eq, not_true_eq_false, false_or,
        decide_eq_false hall]
  · rw [if_neg hb]
    simp [hb, Flow.seq, Flow.result]

/-- The result of the sparse band predicate. -/
theorem tryAssignSparseBand_eq {E : Type} [Element E] (lhs : HermitianMatrix E)
    (rhs : SparseVec E) (band : Int) (row column : Nat) :
    tryAssignSparseBand lhs rhs band row column =
      some (decide (band ≠ 0 ∨ ∀ e ∈ rhs.elements, Element.isReal e.2 = true)) := by
  unfold tryAssignSparseBand
  rw [sparseBandLoop_eq]
  by_cases hb : band = 0
  · by_cases hall : ∀ e ∈ rhs.elements, Element.isReal e.2 = true
    · rw [if_pos hb, if_pos hall]
      simp only [Flow.seq, Flow.result, hb, ne_eq, not_true_eq_false, false_or,
        decide_eq_true hall]
    · rw [if_pos hb, if_neg hall]
      simp only [Flow.seq, Flow.result, hb, ne_eq, not_true_eq_false, false_or,
        decide_eq_false hall]
  · rw [if_neg hb]
    simp [hb, Flow.seq, Flow.result]

/-- C7: the dense band `tryAssign` returns true exactly when the band index is
non-zero or every element of the vector is real, it returns false otherwise,
and its result is the same for all `row` and `column` arguments. -/
theorem tryAssignDenseBand_iff {E : Type} [Element E] (lhs : HermitianMatrix E) (rhs : List E)
    (band : Int) (row column : Nat) :
    (tryAssignDenseBand lhs rhs band row column = some true ↔
      (band ≠ 0 ∨ ∀ i (h : i < rhs.length), Element.isReal (rhs.get ⟨i, h⟩) = true)) ∧
    (tryAssignDenseBand lhs rhs band row column = some false ↔
      (band = 0 ∧ ∃ i, ∃ h : i < rhs.length, Element.isReal (rhs.get ⟨i, h⟩) = false)) ∧
    (∀ row2 column2,
      tryAssignDenseBand lhs rhs band row2 column2 =
        tryAssignDenseBand lhs rhs band row column) := by
  have hmem : (∀ x ∈ rhs, Element.isReal x = true) ↔
      ∀ i (h : i < rhs.length), Element.isReal (rhs.get ⟨i, h⟩) = true := by
    constructor
    · intro h i hi
      exact h _ (List.get_mem rhs i hi)
    · intro h x hx
      rcases List.mem_iff_get.mp hx with ⟨n, rfl⟩
      exact h n.1 n.2
  refine ⟨?_, ?_, ?_⟩
  · rw [tryAssignDenseBand_eq, ← hmem]
    simp
  · rw [tryAssignDenseBand_eq]
    simp only [Option.some.injEq, decide_eq_false_iff_not, not_or, not_not, not_forall,
      Bool.not_eq_true]
    constructor
    · rintro ⟨h0, x, hx, hreal⟩
      rcases List.mem_iff_get.mp hx with ⟨n, rfl⟩
      exact ⟨h0, n.1, n.2, hreal⟩
    · rintro ⟨h0, i, hi, hreal⟩
      exact ⟨h0, _, List.get_mem rhs i hi, hreal⟩
  · intro row2 column2
    rfl

/-- The vector `[1, i]` is rejected on band 0 and accepted on band 1; the real
vector `[1, 2]` is accepted on band 0. -/
theorem tryAssignDenseBand_iff_witness :
    tryAssignDenseBand (zeroHermitian 3) [⟨1, 0⟩, Cplx.I] 0 0 0 = some false ∧
    tryAssignDenseBand (zeroHermitian 3) [⟨1, 0⟩, Cplx.I] 1 0 1 = some true ∧
    tryAssignDenseBand (zeroHermitian 3) [⟨1, 0⟩, ⟨2, 0⟩] 0 0 0 = some true :=
  ⟨(tryAssignDenseBand_iff (zeroHermitian 3) [⟨1, 0⟩, Cplx.I] 0 0 0).2.1.mpr
      ⟨rfl, 1, by decide, by decide⟩,
    (tryAssignDenseBand_iff (zeroHermitian 3) [⟨1, 0⟩, Cplx.I] 1 0 1).1.mpr
      (Or.inl (by decide)),
    (tryAssignDenseBand_iff (zeroHermitian 3) [⟨1, 0⟩, ⟨2, 0⟩] 0 0 0).1.mpr
      (Or.inr (by decide))⟩

/-! ## Blocks and slices off the diagonal -/

/-- A block none of whose entries lands on the diagonal covers no diagonal
position. -/
theorem overlapSize_eq_zero {E : Type} (rhs : Mat E) (row column : Nat)
    (h : ∀ a, a < rhs.rows → ∀ b, b < rhs.columns → row + a ≠ column + b) :
    overlapSize rhs row column = 0 := by
  by_contra hne
  have hpos : diagFirst row column < diagEnd rhs row column := by
    unfold overlapSize at hne
    omega
  simp only [diagFirst, diagEnd] at hpos
  have := h (max row column - row) (by omega) (max row column - column) (by omega)
  omega

/-- C4: a slice or a block that covers no diagonal position of the target is
accepted, for every element type and every content: the column vector when no
`(row + k, column)` is diagonal, the row vector when no `(row, column + k)` is
diagonal, the block when no `(row + a, column + b)` is diagonal. -/
theorem tryAssign_off_diagonal {E : Type} [Element E] [DecidableEq E] (lhs : HermitianMatrix E)
    (row column : Nat) :
    (∀ rhs : List E, column < sizeMod → (∀ k, k < rhs.length → row + k ≠ column) →
      tryAssignColumnVector lhs rhs row column = some true) ∧
    (∀ rhs : List E, row < sizeMod → (∀ k, k < rhs.length → row ≠ column + k) →
      tryAssignRowVector lhs rhs row column = some true) ∧
    (∀ rhs : Mat E, row + rhs.rows < sizeMod → column + rhs.columns < sizeMod →
      (∀ a, a < rhs.rows → ∀ b, b < rhs.columns → row + a ≠ column + b) →
      tryAssignMatrix lhs rhs row column = some true) := by
  refine ⟨?_, ?_, ?_⟩
  · intro rhs hc h
    rw [tryAssignColumnVector_iff lhs rhs row column hc]
    by_cases hlt : column < row
    · exact Or.inr (Or.inl hlt)
    · refine Or.inr (Or.inr (Or.inl ?_))
      by_contra hn
      exact h (column - row) (by omega) (by omega)
  · intro rhs hr h
    rw [tryAssignRowVector_iff lhs rhs row column hr]
    by_cases hlt : row < column
    · exact Or.inr (Or.inl hlt)
    · refine Or.inr (Or.inr (Or.inl ?_))
      by_contra hn
      exact h (row - column) (by omega) (by omega)
  · intro rhs hr hc h
    rw [tryAssignMatrix_eq lhs rhs row column hr hc, overlapSize_eq_zero rhs row column h]
    simp

/-- Non-real slices and a non-real block in the strict triangles are accepted. -/
theorem tryAssign_off_diagonal_witness :
    tryAssignColumnVector (zeroHermitian 3) [Cplx.I, Cplx.I] 1 0 = some true ∧
    tryAssignRowVector (zeroHermitian 3) [Cplx.I, Cplx.I] 0 1 = some true ∧
    tryAssignMatrix (zeroHermitian 4)
      (Mat.ofRows 2 2 [[Cplx.I, ⟨1, 2⟩], [⟨3, 4⟩, Cplx.I]]) 0 2 = some true :=
  ⟨(tryAssign_off_diagonal (zeroHermitian 3) 1 0).1 [Cplx.I, Cplx.I] (by decide) (by decide),
    (tryAssign_off_diagonal (zeroHermitian 3) 0 1).2.1 [Cplx.I, Cplx.I] (by decide) (by decide),
    (tryAssign_off_diagonal (zeroHermitian 4) 0 2).2.2
      (Mat.ofRows 2 2 [[Cplx.I, ⟨1, 2⟩], [⟨3, 4⟩, Cplx.I]]) (by decide) (by decide) (by decide)⟩

/-! ## Empty operands -/

/-- C8: every empty mutation is accepted: a vector of length zero as a column
or row slice and as a dense band, a sparse vector without stored elements as a
band, and a block with zero rows or zero columns, at every position and for
every element type. -/
theorem tryAssign_empty {E : Type} [Element E] [DecidableEq E] (lhs : HermitianMatrix E)
    (row column : Nat) :
    tryAssignColumnVector lhs ([] : List E) row column = some true ∧
    tryAssignRowVector lhs ([] : List E) row column = some true ∧
    (∀ band : Int, tryAssignDenseBand lhs ([] : List E) band row column = some true) ∧
    (∀ (band : Int) (n : Nat),
      tryAssignSparseBand lhs (⟨n, []⟩ : SparseVec E) band row column = some true) ∧
    (∀ rhs : Mat E, row + rhs.rows < sizeMod → column + rhs.columns < sizeMod →
      (rhs.rows = 0 ∨ rhs.columns = 0) → tryAssignMatrix lhs rhs row column = some true) := by
  refine ⟨?_, ?_, ?_, ?_, ?_⟩
  · unfold tryAssignColumnVector tryAssignColumnVector.first
    rw [Flow.result_seq_ret]
    simp
  · unfold tryAssignRowVector tryAssignRowVector.first
    rw [Flow.result_seq_ret]
    simp
  · intro band
    rw [tryAssignDenseBand_eq]
    simp
  · intro band n
    rw [tryAssignSparseBand_eq]
    simp
  · intro rhs hr hc h0
    rw [tryAssignMatrix_eq lhs rhs row column hr hc, overlapSize_eq_zero rhs row column]
    · simp
    · intro a ha b hb
      omega

/-- Blocks with no rows or no columns are accepted. -/
theorem tryAssign_empty_witness :
    tryAssignMatrix (zeroHermitian 3) (⟨0, 2, fun _ _ => Cplx.I⟩ : Mat Cplx) 1 0 = some true ∧
    tryAssignMatrix (zeroHermitian 3) (⟨2, 0, fun _ _ => Cplx.I⟩ : Mat Cplx) 0 1 = some true :=
  ⟨(tryAssign_empty (zeroHermitian 3) 1 0).2.2.2.2 ⟨0, 2, fun _ _ => Cplx.I⟩
      (by decide) (by decide) (Or.inl rfl),
    (tryAssign_empty (zeroHermitian 3) 0 1).2.2.2.2 ⟨2, 0, fun _ _ => Cplx.I⟩
      (by decide) (by decide) (Or.inr rfl)⟩

/-! ## Arithmetic-assignment variants -/

/-- C9: every arithmetic-assignment predicate returns the result of the plain
predicate on the same arguments: `tryAdd`, `trySub`, `tryMult` and `tryDiv`
that of `trySet`, and each `tryAddAssign`, `trySubAssign`, `tryMultAssign`,
`trySchurAssign` and `tryDivAssign` overload that of the `tryAssign` overload
for the same operand kind (slice, band, block). -/
theorem tryArith_eq_tryAssign {E : Type} [Element E] [DecidableEq E] (lhs : HermitianMatrix E) :
    (∀ i j (v : E),
      tryAdd lhs i j v = trySet lhs i j v ∧ trySub lhs i j v = trySet lhs i j v ∧
      tryMult lhs i j v = trySet lhs i j v ∧ tryDiv lhs i j v = trySet lhs i j v) ∧
    (∀ (tf : Bool) (rhs : List E) (row column : Nat),
      tryAddAssignVector lhs tf rhs row column = tryAssignVector lhs tf rhs row column ∧
      trySubAssignVector lhs tf rhs row column = tryAssignVector lhs tf rhs row column ∧
      tryMultAssignVector lhs tf rhs row column = tryAssignVector lhs tf rhs row column ∧
      tryDivAssignVector lhs tf rhs row column = tryAssignVector lhs tf rhs row column) ∧
    (∀ (rhs : BandOperand E) (band : Int) (row column : Nat),
      tryAddAssignBand lhs rhs band row column = tryAssignBand lhs rhs band row column ∧
      trySubAssignBand lhs rhs band row column = tryAssignBand lhs rhs band row column ∧
      tryMultAssignBand lhs rhs band row column = tryAssignBand lhs rhs band row column ∧
      tryDivAssignBand lhs rhs band row column = tryAssignBand lhs rhs band row column) ∧
    (∀ (rhs : Mat E) (row column : Nat),
      tryAddAssignMatrix lhs rhs row column = tryAssignMatrix lhs rhs row column ∧
      trySubAssignMatrix lhs rhs row column = tryAssignMatrix lhs rhs row column ∧
      trySchurAssignMatrix lhs rhs row column = tryAssignMatrix lhs rhs row column) :=
  ⟨fun _ _ _ => ⟨rfl, rfl, rfl, rfl⟩, fun _ _ _ _ => ⟨rfl, rfl, rfl, rfl⟩,
    fun _ _ _ _ => ⟨rfl, rfl, rfl, rfl⟩, fun _ _ _ => ⟨rfl, rfl, rfl⟩⟩

/-! ## Purity -/

/-- C10: every predicate is a function of the proposed mutation alone: two
target matrices give the same result, and the result is always a Boolean, never
an error (for a block, when the index sums fit into `size_t`).  The target is
passed by `const` reference; a predicate yields nothing but its Boolean. -/
theorem try_predicates_pure {E : Type} [Element E] [DecidableEq E]
    (lhs₁ lhs₂ : HermitianMatrix E) :
    (∀ i j (v : E), trySet lhs₁ i j v = trySet lhs₂ i j v ∧ ∃ b, trySet lhs₁ i j v = some b) ∧
    (∀ (tf : Bool) (rhs : List E) (row column : Nat),
      tryAssignVector lhs₁ tf rhs row column = tryAssignVector lhs₂ tf rhs row column ∧
      ∃ b, tryAssignVector lhs₁ tf rhs row column = some b) ∧
    (∀ (rhs : BandOperand E) (band : Int) (row column : Nat),
      tryAssignBand lhs₁ rhs band row column = tryAssignBand lhs₂ rhs band row column ∧
      ∃ b, tryAssignBand lhs₁ rhs band row column = some b) ∧
    (∀ (rhs : Mat E) (row column : Nat),
      tryAssignMatrix lhs₁ rhs row column = tryAssignMatrix lhs₂ rhs row column ∧
      (row + rhs.rows < sizeMod → column + rhs.columns < sizeMod →
        ∃ b, tryAssignMatrix lhs₁ rhs row column = some b)) ∧
    (∀ i j (v : E),
      tryAdd lhs₁ i j v = tryAdd lhs₂ i j v ∧ trySub lhs₁ i j v = trySub lhs₂ i j v ∧
      tryMult lhs₁ i j v = tryMult lhs₂ i j v ∧ tryDiv lhs₁ i j v = tryDiv lhs₂ i j v) ∧
    (∀ (tf : Bool) (rhs : List E) (row column : Nat),
      tryAddAssignVector lhs₁ tf rhs row column = tryAddAssignVector lhs₂ tf rhs row column ∧
      trySubAssignVector lhs₁ tf rhs row column = trySubAssignVector lhs₂ tf rhs row column ∧
      tryMultAssignVector lhs₁ tf rhs row column = tryMultAssignVector lhs₂ tf rhs row column ∧
      tryDivAssignVector lhs₁ tf rhs row column = tryDivAssignVector lhs₂ tf rhs row column) ∧
    (∀ (rhs : BandOperand E) (band : Int) (row column : Nat),
      tryAddAssignBand lhs₁ rhs band row column = tryAddAssignBand lhs₂ rhs band row column ∧
      trySubAssignBand lhs₁ rhs band row column = trySubAssignBand lhs₂ rhs band row column ∧
      tryMultAssignBand lhs₁ rhs band row column = tryMultAssignBand lhs₂ rhs band row column ∧
      tryDivAssignBand lhs₁ rhs band row column = tryDivAssignBand lhs₂ rhs band row column) ∧
    (∀ (rhs : Mat E) (row column : Nat),
      tryAddAssignMatrix lhs₁ rhs row column = tryAddAssignMatrix lhs₂ rhs row column ∧
      trySubAssignMatrix lhs₁ rhs row column = trySubAssignMatrix lhs₂ rhs row column ∧
      trySchurAssignMatrix lhs₁ rhs row column = trySchurAssignMatrix lhs₂ rhs row column) := by
  refine ⟨?_, ?_, ?_, ?_, fun _ _ _ => ⟨rfl, rfl, rfl, rfl⟩, fun _ _ _ _ => ⟨rfl, rfl, rfl, rfl⟩,
    fun _ _ _ _ => ⟨rfl, rfl, rfl, rfl⟩, fun _ _ _ => ⟨rfl, rfl, rfl⟩⟩
  · intro i j v
    exact ⟨rfl, _, rfl⟩
  · intro tf rhs row column
    refine ⟨rfl, ?_⟩
    cases tf
    · exact tryAssignColumnVector_returns lhs₁ rhs row column
    · exact tryAssignRowVector_returns lhs₁ rhs row column
  · intro rhs band row column
    refine ⟨rfl, ?_⟩
    cases rhs with
    | dense v => exact ⟨_, tryAssignDenseBand_eq lhs₁ v band row column⟩
    | sparse v => exact ⟨_, tryAssignSparseBand_eq lhs₁ v band row column⟩
  · intro rhs row column
    refine ⟨rfl, ?_⟩
    intro hr hc
    exact ⟨_, tryAssignMatrix_eq lhs₁ rhs row column hr hc⟩

/-- The block predicate gives the same Boolean against a `3 × 3` and a `4 × 4`
target. -/
theorem try_predicates_pure_witness :
    (tryAssignMatrix (zeroHermitian 3)
        (Mat.ofRows 2 2 [[⟨1, 0⟩, ⟨2, 5⟩], [⟨2, 0 - 5⟩, ⟨3, 0⟩]]) 1 1 =
      tryAssignMatrix (zeroHermitian 4)
        (Mat.ofRows 2 2 [[⟨1, 0⟩, ⟨2, 5⟩], [⟨2, 0 - 5⟩, ⟨3, 0⟩]]) 1 1) ∧
    ∃ b, tryAssignMatrix (zeroHermitian 3)
      (Mat.ofRows 2 2 [[⟨1, 0⟩, ⟨2, 5⟩], [⟨2, 0 - 5⟩, ⟨3, 0⟩]]) 1 1 = some b :=
  ⟨((try_predicates_pure (zeroHermitian 3) (zeroHermitian 4)).2.2.2.1
      (Mat.ofRows 2 2 [[⟨1, 0⟩, ⟨2, 5⟩], [⟨2, 0 - 5⟩, ⟨3, 0⟩]]) 1 1).1,
    ((try_predicates_pure (zeroHermitian 3) (zeroHermitian 4)).2.2.2.1
      (Mat.ofRows 2 2 [[⟨1, 0⟩, ⟨2, 5⟩], [⟨2, 0 - 5⟩, ⟨3, 0⟩]]) 1 1).2 (by decide) (by decide)⟩

/-! ## The block predicate and the overlap sub-block -/

/-- C3: the `2 × 2` block `straddlingBlock` written at `(0, 1)` covers the single
diagonal position `(1,1)`; the source entry landing there is the imaginary
unit, so the `1 × 1` overlap sub-block is not Hermitian, and the block
predicate returns true all the same. -/
theorem tryAssignMatrix_single_diagonal :
    overlapSize straddlingBlock 0 1 = 1 ∧
    (overlap straddlingBlock 0 1).elem 0 0 = Cplx.I ∧
    isHermitian (overlap straddlingBlock 0 1) = false ∧
    tryAssignMatrix (zeroHermitian 3) straddlingBlock 0 1 = some true := by
  decide

/-- The block predicate decides whether the overlap sub-block is Hermitian
whenever the block covers at least two diagonal positions, and for a built-in
element type whenever it covers at least one. -/
theorem tryAssignMatrix_iff_overlap {E : Type} [Element E] [DecidableEq E] [LawfulElement E]
    (lhs : HermitianMatrix E) (rhs : Mat E) (row column : Nat)
    (hr : row + rhs.rows < sizeMod) (hc : column + rhs.columns < sizeMod)
    (hcover : 1 ≤ overlapSize rhs row column)
    (hsize : 2 ≤ overlapSize rhs row column ∨ Element.isBuiltin E = true) :
    tryAssignMatrix lhs rhs row column = some true ↔ isHermitian (overlap rhs row column) = true := by
  rw [tryAssignMatrix_eq lhs rhs row column hr hc]
  have hearly : ¬ (row + rhs.rows ≤ column ∨ column + rhs.columns ≤ row) := by
    simp only [overlapSize, diagEnd, diagFirst] at hcover
    omega
  by_cases h2 : 2 ≤ overlapSize rhs row column
  · have hlt : ¬ overlapSize rhs row column < 2 := by omega
    simp [hearly, hlt]
  · have hb : Element.isBuiltin E = true := by
      rcases hsize with h | h
      · exact absurd h h2
      · exact h
    have hlt : overlapSize rhs row column < 2 := by omega
    have hherm : isHermitian (overlap rhs row column) = true := by
      rw [isHermitian_iff]
      refine ⟨rfl, ?_⟩
      intro i hi j hj
      have hi0 : i = 0 := by
        simp only [overlap] at hi
        omega
      have hj0 : j = 0 := by
        simp only [overlap] at hj
        omega
      subst hi0
      subst hj0
      exact (((LawfulElement.isReal_iff _).mp (LawfulElement.builtin_isReal hb _))).symm
    simp [hlt, hherm]

/-- A Hermitian `2 × 2` block written at `(1, 1)` covers two diagonal
positions. -/
theorem tryAssignMatrix_iff_overlap_witness :
    tryAssignMatrix (zeroHermitian 3)
        (Mat.ofRows 2 2 [[⟨1, 0⟩, ⟨2, 5⟩], [⟨2, 0 - 5⟩, ⟨3, 0⟩]]) 1 1 = some true ↔
      isHermitian (overlap (Mat.ofRows 2 2 [[⟨1, 0⟩, ⟨2, 5⟩], [⟨2, 0 - 5⟩, ⟨3, 0⟩]]) 1 1) = true :=
  tryAssignMatrix_iff_overlap (zeroHermitian 3)
    (Mat.ofRows 2 2 [[⟨1, 0⟩, ⟨2, 5⟩], [⟨2, 0 - 5⟩, ⟨3, 0⟩]]) 1 1 (by decide) (by decide)
    (by decide) (Or.inl (by decide))

/-! ## Invariant closure -/

/-- C2: on the intact `3 × 3` zero matrix the `1 × 1` block holding the
imaginary unit, written at `(1, 1)`, is accepted by the block predicate; the
protocol commits it, the diagonal entry `(1,1)` becomes the imaginary unit and
`isIntact` is false for the resulting matrix. -/
theorem apply_block_breaks_invariant :
    isIntact (zeroHermitian 3) = true ∧
    Mutation.validate (zeroHermitian 3)
      (Mutation.assignBlock 1 1 (Mat.ofRows 1 1 [[Cplx.I]])) = some true ∧
    (Mutation.apply (zeroHermitian 3)
      (Mutation.assignBlock 1 1 (Mat.ofRows 1 1 [[Cplx.I]]))).map
        (fun m => m.matrix_.elem 1 1) = some Cplx.I ∧
    (Mutation.apply (zeroHermitian 3)
      (Mutation.assignBlock 1 1 (Mat.ofRows 1 1 [[Cplx.I]]))).map isIntact = some false := by
  decide

/-- Committing a mutation whose target entries agree with their own mirror
images keeps the matrix intact. -/
theorem Mutation.commit_intact {E : Type} [Element E] [DecidableEq E] [LawfulElement E]
    (lhs : HermitianMatrix E) (m : Mutation E) (hI : isIntact lhs = true)
    (hcons : ∀ i j v u, m.target i j = some v → m.target j i = some u → v = Element.conj u) :
    isIntact (Mutation.commit lhs m) = true := by
  unfold isIntact at *
  rw [isHermitian_iff] at *
  obtain ⟨hsq, hsym⟩ := hI
  refine ⟨hsq, ?_⟩
  intro i hi j hj
  simp only [Mutation.commit] at *
  cases hij : m.target i j with
  | some v =>
    cases hji : m.target j i with
    | some u => exact hcons i j v u hij hji
    | none => exact (LawfulElement.conj_conj v).symm
  | none =>
    cases hji : m.target j i with
    | some u => rfl
    | none => exact hsym i hi j hj

/-- A real value is its own conjugate. -/
theorem isReal_conj_eq {E : Type} [Element E] [LawfulElement E] {v : E}
    (h : Element.isReal v = true) : v = Element.conj v :=
  ((LawfulElement.isReal_iff v).mp h).symm

/-- An accepted mutation, other than a block covering one diagonal position with
a non-built-in element type, writes values that agree with their mirror
images. -/
theorem Mutation.target_consistent {E : Type} [Element E] [DecidableEq E] [LawfulElement E]
    (lhs : HermitianMatrix E) (m : Mutation E)
    (hrows : lhs.matrix_.rows < sizeMod) (hcols : lhs.matrix_.columns < sizeMod)
    (hfit : Mutation.fits lhs m)
    (hone : Mutation.coversOneDiagonal m → Element.isBuiltin E = true)
    (hv : Mutation.validate lhs m = some true) :
    ∀ i j v u, m.target i j = some v → m.target j i = some u → v = Element.conj u := by
  intro i j v u hij hji
  cases m with
  | setElement a b value =>
    simp only [Mutation.target] at hij hji
    by_cases h1 : i = a ∧ j = b
    · by_cases h2 : j = a ∧ i = b
      · rw [if_pos h1] at hij
        rw [if_pos h2] at hji
        cases hij
        cases hji
        have hab : a = b := by omega
        have hreal : Element.isReal v = true := by
          simp only [Mutation.validate, trySet, Option.some.injEq, hab, bne_self_eq_false,
            Bool.false_or] at hv
          exact hv
        exact isReal_conj_eq hreal
      · rw [if_neg h2] at hji
        cases hji
    · rw [if_neg h1] at hij
      cases hij
  | assignBand band row column values =>
    simp only [Mutation.target] at hij hji
    by_cases h1 : row ≤ i ∧ column ≤ j ∧ i - row = j - column
    · by_cases h2 : row ≤ j ∧ column ≤ i ∧ j - row = i - column
      · rw [if_pos h1] at hij
        rw [if_pos h2] at hji
        have hrc : row = column := by omega
        have hidx : j - row = i - row := by omega
        rw [hidx, hij] at hji
        cases hji
        have hband : band = 0 := by
          have := hfit.1
          omega
        simp only [Mutation.validate] at hv
        rw [tryAssignDenseBand_eq] at hv
        simp only [Option.some.injEq, decide_eq_true_eq, hband, ne_eq, not_true_eq_false,
          false_or] at hv
        exact isReal_conj_eq (hv v (List.getElem?_mem hij))
      · rw [if_neg h2] at hji
        cases hji
    · rw [if_neg h1] at hij
      cases hij
  | assignVector row column rowAligned values =>
    cases rowAligned with
    | false =>
      simp only [Mutation.target, Bool.false_eq_true, if_false] at hij hji
      simp only [Mutation.fits, Bool.false_eq_true, if_false] at hfit
      by_cases h1 : j = column ∧ row ≤ i
      · by_cases h2 : i = column ∧ row ≤ j
        · rw [if_pos h1] at hij
          rw [if_pos h2] at hji
          obtain ⟨hj, _⟩ := h1
          obtain ⟨hi, _⟩ := h2
          subst hj
          subst hi
          rw [hij] at hji
          cases hji
          have hlen : i - row < values.length := (List.getElem?_eq_some.mp hij).1
          simp only [Mutation.validate, tryAssignVector, Bool.false_eq_true, if_false] at hv
          rw [tryAssignColumnVector_iff lhs values row i (by omega)] at hv
          rcases hv with h | h | h | ⟨w, hw, hreal⟩
          · exact isReal_conj_eq (LawfulElement.builtin_isReal h v)
          · omega
          · omega
          · rw [hij] at hw
            cases hw
            exact isReal_conj_eq hreal
        · rw [if_neg h2] at hji
          cases hji
      · rw [if_neg h1] at hij
        cases hij
    | true =>
      simp only [Mutation.target, if_true] at hij hji
      simp only [Mutation.fits, if_true] at hfit
      by_cases h1 : i = row ∧ column ≤ j
      · by_cases h2 : j = row ∧ column ≤ i
        · rw [if_pos h1] at hij
          rw [if_pos h2] at hji
          obtain ⟨hi, _⟩ := h1
          obtain ⟨hj, _⟩ := h2
          subst hi
          subst hj
          rw [hij] at hji
          cases hji
          have hlen : j - column < values.length := (List.getElem?_eq_some.mp hij).1
          simp only [Mutation.validate, tryAssignVector, if_true] at hv
          rw [tryAssignRowVector_iff lhs values j column (by omega)] at hv
          rcases hv with h | h | h | ⟨w, hw, hreal⟩
          · exact isReal_conj_eq (LawfulElement.builtin_isReal h v)
          · omega
          · omega
          · rw [hij] at hw
            cases hw
            exact isReal_conj_eq hreal
        · rw [if_neg h2] at hji
          cases hji
      · rw [if_neg h1] at hij
        cases hij
  | assignBlock row column source =>
    simp only [Mutation.target] at hij hji
    simp only [Mutation.fits] at hfit
    simp only [Mutation.coversOneDiagonal] at hone
    by_cases h1 : row ≤ i ∧ i < row + source.rows ∧ column ≤ j ∧ j < column + source.columns
    · by_cases h2 : row ≤ j ∧ j < row + source.rows ∧ column ≤ i ∧ i < column + source.columns
      · rw [if_pos h1] at hij
        rw [if_pos h2] at hji
        cases hij
        cases hji
        simp only [Mutation.validate] at hv
        rw [tryAssignMatrix_eq lhs source row column (by omega) (by omega)] at hv
        have hearly : ¬ (row + source.rows ≤ column ∨ column + source.columns ≤ row) := by omega
        simp only [Option.some.injEq, Bool.or_eq_true, decide_eq_true_eq, hearly, false_or] at hv
        rcases hv with hsmall | hherm
        · have hone1 : overlapSize source row column = 1 := by
            simp only [overlapSize, diagEnd, diagFirst] at hsmall ⊢
            omega
          have hb := hone hone1
          have hijeq : i = j := by
            simp only [overlapSize, diagEnd, diagFirst] at hone1
            omega
          subst hijeq
          exact isReal_conj_eq (LawfulElement.builtin_isReal hb _)
        · rw [isHermitian_iff] at hherm
          have hi' : i - diagFirst row column < overlapSize source row column := by
            simp only [overlapSize, diagEnd, diagFirst]
            omega
          have hj' : j - diagFirst row column < overlapSize source row column := by
            simp only [overlapSize, diagEnd, diagFirst]
            omega
          have := hherm.2 (i - diagFirst row column) hi' (j - diagFirst row column) hj'
          simp only [overlap] at this
          have e1 : diagFirst row column + (i - diagFirst row column) - row = i - row := by
            simp only [diagFirst]; omega
          have e2 : diagFirst row column + (j - diagFirst row column) - column = j - column := by
            simp only [diagFirst]; omega
          have e3 : diagFirst row column + (j - diagFirst row column) - row = j - row := by
            simp only [diagFirst]; omega
          have e4 : diagFirst row column + (i - diagFirst row column) - column = i - column := by
            simp only [diagFirst]; omega
          rw [e1, e2, e3, e4] at this
          exact this
      · rw [if_neg h2] at hji
        cases hji
    · rw [if_neg h1] at hij
      cases hij

/-- Invariant closure of the protocol, for every mutation other than a block
that covers a single diagonal position with a non-built-in element type: when
the target is intact, the mutation satisfies the asserted preconditions and its
predicate accepts it, the protocol commits it and the committed matrix is
intact again. -/
theorem Mutation.apply_intact {E : Type} [Element E] [DecidableEq E] [LawfulElement E]
    (lhs : HermitianMatrix E) (m : Mutation E)
    (hrows : lhs.matrix_.rows < sizeMod) (hcols : lhs.matrix_.columns < sizeMod)
    (hI : isIntact lhs = true) (hfit : Mutation.fits lhs m)
    (hone : Mutation.coversOneDiagonal m → Element.isBuiltin E = true)
    (hv : Mutation.validate lhs m = some true) :
    ∃ lhs2, Mutation.apply lhs m = some lhs2 ∧ isIntact lhs2 = true := by
  refine ⟨Mutation.commit lhs m, ?_, ?_⟩
  · simp [Mutation.apply, hv]
  · exact Mutation.commit_intact lhs m hI
      (Mutation.target_consistent lhs m hrows hcols hfit hone hv)

/-- A Hermitian `2 × 2` block written at `(1, 1)` of the `3 × 3` zero matrix is
committed and leaves the matrix intact. -/
theorem Mutation.apply_intact_witness :
    ∃ lhs2, Mutation.apply (zeroHermitian 3)
        (Mutation.assignBlock 1 1 (Mat.ofRows 2 2 [[⟨1, 0⟩, ⟨2, 5⟩], [⟨2, 0 - 5⟩, ⟨3, 0⟩]])) =
          some lhs2 ∧ isIntact lhs2 = true :=
  Mutation.apply_intact (zeroHermitian 3)
    (Mutation.assignBlock 1 1 (Mat.ofRows 2 2 [[⟨1, 0⟩, ⟨2, 5⟩], [⟨2, 0 - 5⟩, ⟨3, 0⟩]]))
    (by decide) (by decide) (by decide) ⟨by decide, by decide⟩
    (fun h => absurd (show overlapSize
      (Mat.ofRows 2 2 [[⟨1, 0⟩, ⟨2, 5⟩], [⟨2, 0 - 5⟩, ⟨3, 0⟩]]) 1 1 = 1 from h) (by decide))
    (by decide)

/-! ## Mirrored writes and rejected mutations -/

/-- C11: setting an off-diagonal element `(i, j)` to `v` succeeds; afterwards
entry `(i, j)` is `v`, entry `(j, i)` is the conjugate of `v`, every other entry
and the dimensions are as before. -/
theorem setElement_mirrored {E : Type} [Element E] [DecidableEq E] (lhs : HermitianMatrix E)
    (i j : Nat) (v : E) (hij : i ≠ j) :
    ∃ lhs2, Mutation.apply lhs (Mutation.setElement i j v) = some lhs2 ∧
      lhs2.matrix_.elem i j = v ∧ lhs2.matrix_.elem j i = Element.conj v ∧
      (∀ a b, ¬ (a = i ∧ b = j) → ¬ (a = j ∧ b = i) →
        lhs2.matrix_.elem a b = lhs.matrix_.elem a b) ∧
      lhs2.matrix_.rows = lhs.matrix_.rows ∧ lhs2.matrix_.columns = lhs.matrix_.columns := by
  refine ⟨Mutation.commit lhs (Mutation.setElement i j v), ?_, ?_, ?_, ?_, rfl, rfl⟩
  · simp [Mutation.apply, Mutation.validate, trySet, hij]
  · simp [Mutation.commit, Mutation.target]
  · have hji : ¬ (j = i ∧ i = j) := fun h => hij h.2
    simp [Mutation.commit, Mutation.target, hji]
  · intro a b h1 h2
    have h2' : ¬ (b = i ∧ a = j) := fun h => h2 ⟨h.2, h.1⟩
    simp [Mutation.commit, Mutation.target, h1, h2']

/-- The entries of the `3 × 3` zero matrix after setting `(0, 1)` to `2 + 3i`. -/
theorem setElement_mirrored_witness :
    ∃ lhs2, Mutation.apply (zeroHermitian 3) (Mutation.setElement 0 1 ⟨2, 3⟩) = some lhs2 ∧
      lhs2.matrix_.elem 0 1 = ⟨2, 3⟩ ∧ lhs2.matrix_.elem 1 0 = Element.conj (⟨2, 3⟩ : Cplx) ∧
      (∀ a b, ¬ (a = 0 ∧ b = 1) → ¬ (a = 1 ∧ b = 0) →
        lhs2.matrix_.elem a b = (zeroHermitian 3).matrix_.elem a b) ∧
      lhs2.matrix_.rows = (zeroHermitian 3).matrix_.rows ∧
      lhs2.matrix_.columns = (zeroHermitian 3).matrix_.columns :=
  setElement_mirrored (zeroHermitian 3) 0 1 ⟨2, 3⟩ (by decide)

/-- A value that is its own conjugate is real. -/
theorem isReal_of_eq_conj {E : Type} [Element E] [LawfulElement E] {v : E}
    (h : v = Element.conj v) : Element.isReal v = true :=
  (LawfulElement.isReal_iff v).mpr h.symm

/-- Every mutation that respects the symmetry is accepted by the predicate of
its shape. -/
theorem Mutation.validate_of_respectsSymmetry {E : Type} [Element E] [DecidableEq E]
    [LawfulElement E] (lhs : HermitianMatrix E) (m : Mutation E)
    (hrows : lhs.matrix_.rows < sizeMod) (hcols : lhs.matrix_.columns < sizeMod)
    (hfit : Mutation.fits lhs m) (hsym : Mutation.respectsSymmetry m) :
    Mutation.validate lhs m = some true := by
  unfold Mutation.respectsSymmetry at hsym
  cases m with
  | setElement a b value =>
    simp only [Mutation.validate, trySet, Option.some.injEq, Bool.or_eq_true, bne_iff_ne, ne_eq]
    by_cases hab : a = b
    · right
      subst hab
      have ht : (Mutation.setElement a a value).target a a = some value := by
        simp [Mutation.target]
      exact isReal_of_eq_conj (hsym a a value value ht ht)
    · exact Or.inl hab
  | assignBand band row column values =>
    simp only [Mutation.validate]
    rw [tryAssignDenseBand_eq]
    simp only [Option.some.injEq, decide_eq_true_eq]
    by_cases hb : band = 0
    · right
      intro x hx
      obtain ⟨k, hk⟩ := List.getElem?_of_mem hx
      have hrc : row = column := by
        have := hfit.1
        omega
      have ht : (Mutation.assignBand band row column values).target (row + k) (row + k) =
          some x := by
        simp only [Mutation.target]
        rw [if_pos (by omega)]
        simpa using hk
      exact isReal_of_eq_conj (hsym _ _ x x ht ht)
    · exact Or.inl hb
  | assignVector row column rowAligned values =>
    cases rowAligned with
    | false =>
      simp only [Mutation.fits, Bool.false_eq_true, if_false] at hfit
      simp only [Mutation.validate, tryAssignVector, Bool.false_eq_true, if_false]
      rw [tryAssignColumnVector_iff lhs values row column (by omega)]
      by_cases hlt : column < row
      · exact Or.inr (Or.inl hlt)
      · by_cases hn : values.length ≤ column - row
        · exact Or.inr (Or.inr (Or.inl hn))
        · have hlen : column - row < values.length := by omega
          refine Or.inr (Or.inr (Or.inr ⟨values[column - row], List.getElem?_eq_getElem hlen, ?_⟩))
          have ht : (Mutation.assignVector row column false values).target column column =
              some values[column - row] := by
            simp only [Mutation.target, Bool.false_eq_true, if_false]
            rw [if_pos ⟨trivial, by omega⟩]
            exact List.getElem?_eq_getElem hlen
          exact isReal_of_eq_conj (hsym _ _ _ _ ht ht)
    | true =>
      simp only [Mutation.fits, if_true] at hfit
      simp only [Mutation.validate, tryAssignVector, if_true]
      rw [tryAssignRowVector_iff lhs values row column (by omega)]
      by_cases hlt : row < column
      · exact Or.inr (Or.inl hlt)
      · by_cases hn : values.length ≤ row - column
        · exact Or.inr (Or.inr (Or.inl hn))
        · have hlen : row - column < values.length := by omega
          refine Or.inr (Or.inr (Or.inr ⟨values[row - column], List.getElem?_eq_getElem hlen, ?_⟩))
          have ht : (Mutation.assignVector row column true values).target row row =
              some values[row - column] := by
            simp only [Mutation.target, if_true]
            rw [if_pos ⟨trivial, by omega⟩]
            exact List.getElem?_eq_getElem hlen
          exact isReal_of_eq_conj (hsym _ _ _ _ ht ht)
  | assignBlock row column source =>
    simp only [Mutation.fits] at hfit
    simp only [Mutation.validate]
    rw [tryAssignMatrix_eq lhs source row column (by omega) (by omega)]
    have hherm : isHermitian (overlap source row column) = true := by
      rw [isHermitian_iff]
      refine ⟨rfl, ?_⟩
      intro a ha b hb
      simp only [overlap] at ha hb ⊢
      have hin : ∀ c, c < overlapSize source row column →
          row ≤ diagFirst row column + c ∧ diagFirst row column + c < row + source.rows ∧
          column ≤ diagFirst row column + c ∧
          diagFirst row column + c < column + source.columns := by
        intro c hc
        simp only [overlapSize, diagEnd, diagFirst] at hc ⊢
        omega
      have hta : (Mutation.assignBlock row column source).target (diagFirst row column + a)
          (diagFirst row column + b) =
            some (source.elem (diagFirst row column + a - row)
              (diagFirst row column + b - column)) := by
        simp only [Mutation.target]
        rw [if_pos ⟨(hin a ha).1, (hin a ha).2.1, (hin b hb).2.2.1, (hin b hb).2.2.2⟩]
      have htb : (Mutation.assignBlock row column source).target (diagFirst row column + b)
          (diagFirst row column + a) =
            some (source.elem (diagFirst row column + b - row)
              (diagFirst row column + a - column)) := by
        simp only [Mutation.target]
        rw [if_pos ⟨(hin b hb).1, (hin b hb).2.1, (hin a ha).2.2.1, (hin a ha).2.2.2⟩]
      exact hsym _ _ _ _ hta htb
    simp [hherm]

/-- C12: when the predicate rejects a mutation the call fails and the matrix
after the call is the matrix before it; a later mutation that respects the
symmetry (in particular the same mutation with corrected values) is accepted
on that matrix and committed. -/
theorem Mutation.attempt_rejected {E : Type} [Element E] [DecidableEq E] [LawfulElement E]
    (lhs : HermitianMatrix E) (m retry : Mutation E)
    (hrows : lhs.matrix_.rows < sizeMod) (hcols : lhs.matrix_.columns < sizeMod)
    (hrej : Mutation.validate lhs m = some false)
    (hfit : Mutation.fits lhs retry) (hsym : Mutation.respectsSymmetry retry) :
    Mutation.attempt lhs m = (lhs, false) ∧
    Mutation.validate (Mutation.attempt lhs m).1 retry = some true ∧
    Mutation.attempt (Mutation.attempt lhs m).1 retry = (Mutation.commit lhs retry, true) := by
  have h1 : Mutation.attempt lhs m = (lhs, false) := by
    simp [Mutation.attempt, Mutation.apply, hrej]
  have h2 : Mutation.validate lhs retry = some true :=
    Mutation.validate_of_respectsSymmetry lhs retry hrows hcols hfit hsym
  refine ⟨h1, ?_, ?_⟩
  · rw [h1]
    exact h2
  · rw [h1]
    simp [Mutation.attempt, Mutation.apply, h2]

/-- On the `3 × 3` zero matrix, setting `(1,1)` to the imaginary unit is
rejected and changes nothing; setting `(1,1)` to `5` afterwards succeeds. -/
theorem Mutation.attempt_rejected_witness :
    Mutation.attempt (zeroHermitian 3) (Mutation.setElement 1 1 Cplx.I) =
      (zeroHermitian 3, false) ∧
    Mutation.validate (Mutation.attempt (zeroHermitian 3) (Mutation.setElement 1 1 Cplx.I)).1
      (Mutation.setElement 1 1 ⟨5, 0⟩) = some true ∧
    Mutation.attempt (Mutation.attempt (zeroHermitian 3) (Mutation.setElement 1 1 Cplx.I)).1
      (Mutation.setElement 1 1 ⟨5, 0⟩) =
        (Mutation.commit (zeroHermitian 3) (Mutation.setElement 1 1 ⟨5, 0⟩), true) :=
  Mutation.attempt_rejected (zeroHermitian 3) (Mutation.setElement 1 1 Cplx.I)
    (Mutation.setElement 1 1 ⟨5, 0⟩) (by decide) (by decide) (by decide)
    ⟨by decide, by decide⟩
    (by
      intro i j v u hv hu
      simp only [Mutation.target] at hv hu
      by_cases h : i = 1 ∧ j = 1
      · rw [if_pos h] at hv
        rw [if_pos ⟨h.2, h.1⟩] at hu
        cases hv
        cases hu
        decide
      · rw [if_neg h] at hv
        cases hv)

/-! ## Result categories -/

/-- Where the symmetric operand has the default `NF`, the result of adding or
subtracting a Hermitian operand and a second operand, in either order, is
unwrapped for a static, hybrid, dynamic, custom or compressed matrix, Hermitian
for an identity matrix, Symmetric for a symmetric matrix exactly when the
element type of the Hermitian operand is built-in and unwrapped otherwise, and
Hermitian for a Hermitian matrix; on every operand but the symmetric one with
another `NF`, addition and subtraction give the same result. -/
theorem addSubTrait_category (E : Type) [Element E] :
    (∀ B, B = OperandType.staticMatrix ∨ B = OperandType.hybridMatrix ∨
        B = OperandType.dynamicMatrix ∨ B = OperandType.customMatrix ∨
        B = OperandType.compressedMatrix →
      AddTrait.left E B = some Wrapper.unwrapped ∧ AddTrait.right E B = some Wrapper.unwrapped ∧
      SubTrait.left E B = some Wrapper.unwrapped ∧
      SubTrait.right E B = some Wrapper.unwrapped) ∧
    (AddTrait.left E OperandType.identityMatrix = some Wrapper.hermitian ∧
      AddTrait.right E OperandType.identityMatrix = some Wrapper.hermitian ∧
      SubTrait.left E OperandType.identityMatrix = some Wrapper.hermitian ∧
      SubTrait.right E OperandType.identityMatrix = some Wrapper.hermitian) ∧
    (Element.isBuiltin E = true →
      AddTrait.left E (OperandType.symmetricMatrix true) = some Wrapper.symmetric ∧
      AddTrait.right E (OperandType.symmetricMatrix true) = some Wrapper.symmetric ∧
      SubTrait.left E (OperandType.symmetricMatrix true) = some Wrapper.symmetric ∧
      SubTrait.right E (OperandType.symmetricMatrix true) = some Wrapper.symmetric) ∧
    (Element.isBuiltin E = false →
      AddTrait.left E (OperandType.symmetricMatrix true) = some Wrapper.unwrapped ∧
      AddTrait.right E (OperandType.symmetricMatrix true) = some Wrapper.unwrapped ∧
      SubTrait.left E (OperandType.symmetricMatrix true) = some Wrapper.unwrapped ∧
      SubTrait.right E (OperandType.symmetricMatrix true) = some Wrapper.unwrapped) ∧
    (AddTrait.left E OperandType.hermitianMatrix = some Wrapper.hermitian ∧
      AddTrait.right E OperandType.hermitianMatrix = some Wrapper.hermitian ∧
      SubTrait.left E OperandType.hermitianMatrix = some Wrapper.hermitian ∧
      SubTrait.right E OperandType.hermitianMatrix = some Wrapper.hermitian) ∧
    (∀ B, B ≠ OperandType.symmetricMatrix false →
      SubTrait.left E B = AddTrait.left E B ∧ SubTrait.right E B = AddTrait.right E B) := by
  refine ⟨?_, ⟨rfl, rfl, rfl, rfl⟩, ?_, ?_, ⟨rfl, rfl, rfl, rfl⟩, ?_⟩
  · intro B hB
    rcases hB with h | h | h | h | h <;> subst h <;> exact ⟨rfl, rfl, rfl, rfl⟩
  · intro hb
    simp [AddTrait.left, AddTrait.right, SubTrait.left, SubTrait.right, IsSymmetric, hb]
  · intro hb
    simp [AddTrait.left, AddTrait.right, SubTrait.left, SubTrait.right, IsSymmetric, hb]
  · intro B hB
    cases B with
    | symmetricMatrix nf =>
      cases nf with
      | true => exact ⟨rfl, rfl⟩
      | false => exact absurd rfl hB
    | _ => exact ⟨rfl, rfl⟩

/-- With complex elements a Hermitian operand plus a symmetric operand is
unwrapped, with built-in elements it is Symmetric. -/
theorem addSubTrait_category_witness :
    (AddTrait.left Cplx (OperandType.symmetricMatrix true) = some Wrapper.unwrapped ∧
      AddTrait.right Cplx (OperandType.symmetricMatrix true) = some Wrapper.unwrapped ∧
      SubTrait.left Cplx (OperandType.symmetricMatrix true) = some Wrapper.unwrapped ∧
      SubTrait.right Cplx (OperandType.symmetricMatrix true) = some Wrapper.unwrapped) ∧
    (AddTrait.left Int (OperandType.symmetricMatrix true) = some Wrapper.symmetric ∧
      AddTrait.right Int (OperandType.symmetricMatrix true) = some Wrapper.symmetric ∧
      SubTrait.left Int (OperandType.symmetricMatrix true) = some Wrapper.symmetric ∧
      SubTrait.right Int (OperandType.symmetricMatrix true) = some Wrapper.symmetric) :=
  ⟨(addSubTrait_category Cplx).2.2.2.1 rfl, (addSubTrait_category Int).2.2.1 rfl⟩

/-- C14 (as stated, refuted): the product of a Hermitian operand and an identity
matrix, in either order, is wrapped as Hermitian, not unwrapped. -/
theorem multTrait_identity_wrapped :
    MultTrait.left OperandType.identityMatrix = some Wrapper.hermitian ∧
    MultTrait.right OperandType.identityMatrix = some Wrapper.hermitian ∧
    MultTrait.left OperandType.identityMatrix ≠ some Wrapper.unwrapped ∧
    MultTrait.right OperandType.identityMatrix ≠ some Wrapper.unwrapped := by
  decide

/-- C14 (amended): the matrix product of a Hermitian operand with a static,
hybrid, dynamic, custom, compressed, symmetric or Hermitian matrix, in either
order, is unwrapped; with an identity matrix, in either order, it is wrapped as
Hermitian.  The symmetric operand is `SymmetricMatrix<MT,SO,DF>`, which is what
the two specialisations of the multiplication trait match. -/
theorem multTrait_matrix_category :
    (∀ B, B = OperandType.staticMatrix ∨ B = OperandType.hybridMatrix ∨
        B = OperandType.dynamicMatrix ∨ B = OperandType.customMatrix ∨
        B = OperandType.compressedMatrix ∨ B = OperandType.symmetricMatrix true ∨
        B = OperandType.hermitianMatrix →
      MultTrait.left B = some Wrapper.unwrapped ∧ MultTrait.right B = some Wrapper.unwrapped) ∧
    MultTrait.left OperandType.identityMatrix = some Wrapper.hermitian ∧
    MultTrait.right OperandType.identityMatrix = some Wrapper.hermitian := by
  refine ⟨?_, rfl, rfl⟩
  intro B hB
  rcases hB with h | h | h | h | h | h | h <;> subst h <;> exact ⟨rfl, rfl⟩

/-- The product of two Hermitian operands is unwrapped. -/
theorem multTrait_matrix_category_witness :
    MultTrait.left OperandType.hermitianMatrix = some Wrapper.unwrapped ∧
    MultTrait.right OperandType.hermitianMatrix = some Wrapper.unwrapped :=
  multTrait_matrix_category.1 OperandType.hermitianMatrix
    (Or.inr (Or.inr (Or.inr (Or.inr (Or.inr (Or.inr rfl))))))

/-! ## Arithmetic and Hermitian symmetry -/

/-- The identity matrix is Hermitian. -/
theorem Mat.identity_isHermitian {E : Type} [Element E] [DecidableEq E] [Add E] [Sub E] [Mul E]
    [Div E] [Zero E] [One E] [LawfulArith E] (n : Nat) :
    isHermitian (Mat.identity n : Mat E) = true := by
  rw [isHermitian_iff]
  refine ⟨rfl, ?_⟩
  intro i _ j _
  simp only [Mat.identity]
  by_cases h : i = j
  · subst h
    simp [LawfulArith.conj_one]
  · have h2 : ¬ j = i := fun e => h e.symm
    simp [h, h2, LawfulArith.conj_zero]

/-- C15 (as stated, refuted): the `2 × 2` identity matrix is Hermitian, the
trait wraps the result of a scalar multiplication or division as Hermitian, and
yet for the scalar `i` none of `i * A`, `A * i` and `A / i` is Hermitian. -/
theorem scale_by_imaginary_unit :
    isHermitian (Mat.identity 2 : Mat Cplx) = true ∧
    MultTrait.left OperandType.numeric = some Wrapper.hermitian ∧
    MultTrait.right OperandType.numeric = some Wrapper.hermitian ∧
    DivTrait.left OperandType.numeric = some Wrapper.hermitian ∧
    isHermitian (Mat.scalarMult Cplx.I (Mat.identity 2)) = false ∧
    isHermitian (Mat.multScalar (Mat.identity 2) Cplx.I) = false ∧
    isHermitian (Mat.divScalar (Mat.identity 2) Cplx.I) = false := by
  decide

/-- C15 (amended): for every Hermitian matrix `A` and every real scalar `s`
(one that is its own conjugate), the scaled matrices `s * A`, `A * s` and
`A / s` are Hermitian again. -/
theorem scale_by_real_isHermitian {E : Type} [Element E] [DecidableEq E] [LawfulElement E]
    [Add E] [Sub E] [Mul E] [Div E] [Zero E] [One E] [LawfulArith E] (A : Mat E) (s : E)
    (hA : isHermitian A = true) (hs : Element.isReal s = true) :
    isHermitian (Mat.scalarMult s A) = true ∧ isHermitian (Mat.multScalar A s) = true ∧
    isHermitian (Mat.divScalar A s) = true := by
  rw [isHermitian_iff] at hA
  obtain ⟨hsq, hsym⟩ := hA
  have hcs : Element.conj s = s := (LawfulElement.isReal_iff s).mp hs
  have hflip : ∀ i, i < A.rows → ∀ j, j < A.columns →
      Element.conj (A.elem j i) = A.elem i j := fun i hi j hj => (hsym i hi j hj).symm
  refine ⟨?_, ?_, ?_⟩
  · rw [isHermitian_iff]
    refine ⟨hsq, ?_⟩
    intro i hi j hj
    simp only [Mat.scalarMult] at hi hj ⊢
    rw [LawfulArith.conj_mul, hcs, hflip i hi j hj]
  · rw [isHermitian_iff]
    refine ⟨hsq, ?_⟩
    intro i hi j hj
    simp only [Mat.multScalar] at hi hj ⊢
    rw [LawfulArith.conj_mul, hcs, hflip i hi j hj]
  · rw [isHermitian_iff]
    refine ⟨hsq, ?_⟩
    intro i hi j hj
    simp only [Mat.divScalar] at hi hj ⊢
    rw [LawfulArith.conj_div, hcs, hflip i hi j hj]

/-- The Hermitian matrix `hermitianA` scaled by the real scalar `2`. -/
theorem scale_by_real_isHermitian_witness :
    isHermitian (Mat.scalarMult (⟨2, 0⟩ : Cplx) hermitianA) = true ∧
    isHermitian (Mat.multScalar hermitianA (⟨2, 0⟩ : Cplx)) = true ∧
    isHermitian (Mat.divScalar hermitianA (⟨2, 0⟩ : Cplx)) = true :=
  scale_by_real_isHermitian hermitianA ⟨2, 0⟩ (by decide) (by decide)

/-- The sum, the difference and the Schur product of two Hermitian matrices of
the same size are Hermitian. -/
theorem Mat.elementwise_isHermitian {E : Type} [Element E] [DecidableEq E] [Add E] [Sub E]
    [Mul E] [Div E] [Zero E] [One E] [LawfulArith E] (A B : Mat E)
    (hA : isHermitian A = true) (hB : isHermitian B = true) (hrows : A.rows = B.rows) :
    isHermitian (Mat.add A B) = true ∧ isHermitian (Mat.sub A B) = true ∧
    isHermitian (Mat.schur A B) = true := by
  rw [isHermitian_iff] at hA hB
  obtain ⟨hsqA, hsymA⟩ := hA
  obtain ⟨hsqB, hsymB⟩ := hB
  have hflipA : ∀ i, i < A.rows → ∀ j, j < A.columns →
      Element.conj (A.elem j i) = A.elem i j := fun i hi j hj => (hsymA i hi j hj).symm
  have hflipB : ∀ i, i < A.rows → ∀ j, j < A.columns →
      Element.conj (B.elem j i) = B.elem i j := fun i hi j hj =>
    (hsymB i (by omega) j (by omega)).symm
  refine ⟨?_, ?_, ?_⟩
  · rw [isHermitian_iff]
    refine ⟨hsqA, ?_⟩
    intro i hi j hj
    simp only [Mat.add] at hi hj ⊢
    rw [LawfulArith.conj_add, hflipA i hi j hj, hflipB i hi j hj]
  · rw [isHermitian_iff]
    refine ⟨hsqA, ?_⟩
    intro i hi j hj
    simp only [Mat.sub] at hi hj ⊢
    rw [LawfulArith.conj_sub, hflipA i hi j hj, hflipB i hi j hj]
  · rw [isHermitian_iff]
    refine ⟨hsqA, ?_⟩
    intro i hi j hj
    simp only [Mat.schur] at hi hj ⊢
    rw [LawfulArith.conj_mul, hflipA i hi j hj, hflipB i hi j hj]

/-- C16: for Hermitian matrices `A` and `B` of the same size the sum, the
difference and the Schur product are Hermitian; `A` plus the identity matrix
is Hermitian and each of its entries is the sum of the entry of `A` and the
entry of the identity; the traits wrap these results as Hermitian. -/
theorem hermitian_closed_elementwise {E : Type} [Element E] [DecidableEq E] [Add E] [Sub E]
    [Mul E] [Div E] [Zero E] [One E] [LawfulArith E] (A B : Mat E)
    (hA : isHermitian A = true) (hB : isHermitian B = true) (hrows : A.rows = B.rows) :
    (isHermitian (Mat.add A B) = true ∧ isHermitian (Mat.sub A B) = true ∧
      isHermitian (Mat.schur A B) = true) ∧
    (isHermitian (Mat.add A (Mat.identity A.rows)) = true ∧
      ∀ i j, (Mat.add A (Mat.identity A.rows)).elem i j =
        A.elem i j + (if i = j then 1 else 0)) ∧
    (AddTrait.left E OperandType.hermitianMatrix = some Wrapper.hermitian ∧
      SubTrait.left E OperandType.hermitianMatrix = some Wrapper.hermitian ∧
      SchurTrait.left E OperandType.hermitianMatrix = some Wrapper.hermitian ∧
      AddTrait.left E OperandType.identityMatrix = some Wrapper.hermitian) :=
  ⟨Mat.elementwise_isHermitian A B hA hB hrows,
    ⟨(Mat.elementwise_isHermitian A (Mat.identity A.rows) hA
        (Mat.identity_isHermitian A.rows) rfl).1, fun _ _ => rfl⟩,
    ⟨rfl, rfl, rfl, rfl⟩⟩

/-- The matrices `hermitianA` and `hermitianB`. -/
theorem hermitian_closed_elementwise_witness :
    isHermitian (Mat.add hermitianA hermitianB) = true ∧
    isHermitian (Mat.sub hermitianA hermitianB) = true ∧
    isHermitian (Mat.schur hermitianA hermitianB) = true ∧
    isHermitian (Mat.add hermitianA (Mat.identity 2)) = true ∧
    (Mat.add hermitianA (Mat.identity 2)).elem 0 0 = ⟨2, 0⟩ ∧
    (Mat.add hermitianA (Mat.identity 2)).elem 0 1 = ⟨0, 1⟩ :=
  ⟨(hermitian_closed_elementwise hermitianA hermitianB (by decide) (by decide) rfl).1.1,
    (hermitian_closed_elementwise hermitianA hermitianB (by decide) (by decide) rfl).1.2.1,
    (hermitian_closed_elementwise hermitianA hermitianB (by decide) (by decide) rfl).1.2.2,
    (hermitian_closed_elementwise hermitianA hermitianB (by decide) (by decide) rfl).2.1.1,
    by decide, by decide⟩

/-- C17: the Schur product of a matrix `A` and the identity matrix, in either
order, has `A(i,i)` on the diagonal and zero in every other position, and the
trait wraps the result as Diagonal. -/
theorem schur_identity_diagonal {E : Type} [Element E] [Add E] [Sub E] [Mul E] [Div E]
    [Zero E] [One E] [LawfulArith E] (A : Mat E) (n : Nat) :
    (∀ i j, (Mat.schur A (Mat.identity n)).elem i j = if i = j then A.elem i i else 0) ∧
    (∀ i j, (Mat.schur (Mat.identity n) A).elem i j = if i = j then A.elem i i else 0) ∧
    SchurTrait.left E OperandType.identityMatrix = some Wrapper.diagonal ∧
    SchurTrait.right E OperandType.identityMatrix = some Wrapper.diagonal := by
  refine ⟨?_, ?_, rfl, rfl⟩
  · intro i j
    simp only [Mat.schur, Mat.identity]
    by_cases h : i = j
    · subst h
      simp [LawfulArith.mul_one]
    · simp [h, LawfulArith.mul_zero]
  · intro i j
    simp only [Mat.schur, Mat.identity]
    by_cases h : i = j
    · subst h
      simp [LawfulArith.one_mul]
    · simp [h, LawfulArith.zero_mul]

/-- The Schur product of `hermitianA` and the identity matrix. -/
theorem schur_identity_diagonal_witness :
    (∀ i j, (Mat.schur hermitianA (Mat.identity 2)).elem i j =
      if i = j then hermitianA.elem i i else 0) ∧
    (Mat.schur hermitianA (Mat.identity 2)).elem 0 1 = ⟨0, 0⟩ ∧
    (Mat.schur (Mat.identity 2) hermitianA).elem 1 1 = ⟨1, 0⟩ :=
  ⟨(schur_identity_diagonal hermitianA 2).1, by decide, by decide⟩

/-- C18: the Hermitian `2 × 2` matrices `hermitianA` and `hermitianB` have a
product that is not Hermitian: its entry `(0,1)` is `2i` while the conjugate
of its entry `(1,0)` is `i`.  The trait leaves the product of two Hermitian
operands unwrapped. -/
theorem mult_not_hermitian :
    (∃ A B : Mat Cplx, A.rows = B.rows ∧ A.columns = B.columns ∧
      isHermitian A = true ∧ isHermitian B = true ∧ isHermitian (Mat.mult A B) = false) ∧
    (Mat.mult hermitianA hermitianB).elem 0 1 = ⟨0, 2⟩ ∧
    Element.conj ((Mat.mult hermitianA hermitianB).elem 1 0) = (⟨0, 1⟩ : Cplx) ∧
    MultTrait.left OperandType.hermitianMatrix = some Wrapper.unwrapped ∧
    MultTrait.right OperandType.hermitianMatrix = some Wrapper.unwrapped :=
  ⟨⟨hermitianA, hermitianB, rfl, rfl, by decide, by decide, by decide⟩, by decide, by decide,
    rfl, rfl⟩

/-! ## Symmetry of a Hermitian adaptor -/

/-- C19: the trait classifies a Hermitian adaptor as symmetric exactly when its
element type is built-in; a matrix whose entries are their own conjugates and
that satisfies `A(i,j) == conj(A(j,i))` satisfies `A(i,j) == A(j,i)`; so a
Hermitian matrix that the trait classifies as symmetric is symmetric. -/
theorem isSymmetric_sound {E : Type} [Element E] [LawfulElement E] (A : Mat E) :
    (IsSymmetric E = true ↔ Element.isBuiltin E = true) ∧
    ((∀ i j, Element.conj (A.elem i j) = A.elem i j) →
      (∀ i j, i < A.rows → j < A.columns → A.elem i j = Element.conj (A.elem j i)) →
      ∀ i j, i < A.rows → j < A.columns → A.elem i j = A.elem j i) ∧
    (IsSymmetric E = true →
      (∀ i j, i < A.rows → j < A.columns → A.elem i j = Element.conj (A.elem j i)) →
      ∀ i j, i < A.rows → j < A.columns → A.elem i j = A.elem j i) := by
  refine ⟨Iff.rfl, ?_, ?_⟩
  · intro hreal hherm i j hi hj
    rw [hherm i j hi hj, hreal j i]
  · intro hsym hherm i j hi hj
    have hreal : Element.conj (A.elem j i) = A.elem j i :=
      (LawfulElement.isReal_iff _).mp (LawfulElement.builtin_isReal hsym _)
    rw [hherm i j hi hj, hreal]

/-- A symmetric integer matrix, for the built-in element type. -/
theorem isSymmetric_sound_witness :
    IsSymmetric Int = true ∧ IsSymmetric Cplx = false ∧
    ∀ i j, i < 2 → j < 2 →
      (⟨2, 2, fun i j => (i : Int) + j⟩ : Mat Int).elem i j =
        (⟨2, 2, fun i j => (i : Int) + j⟩ : Mat Int).elem j i :=
  ⟨rfl, rfl,
    (isSymmetric_sound (⟨2, 2, fun i j => (i : Int) + j⟩ : Mat Int)).2.2 rfl
      (fun i j _ _ => Int.add_comm i j)⟩

/-! ## Inversion -/

/-- C20: asked for `byLU`, `invert` hands the copy of the backing matrix of
`hermitianInt` to the algorithm `byLDLH`, not to the algorithm `IF` that was
specified: with the tracing inversion the matrix holds the mark of `byLDLH`
(2), where the algorithm `byLU` leaves the mark 0; likewise for `byLDLT`,
whose mark is 1.  Only for `byLDLH`, `byLLH` and `asDiagonal` is the algorithm
the one asked for. -/
theorem invert_byLU_runs_byLDLH :
    invert.flag InversionFlag.byLU = InversionFlag.byLDLH ∧
    invert.flag InversionFlag.byLDLT = InversionFlag.byLDLH ∧
    (invert CopyConstructor.owning tracingBackend InversionFlag.byLU
      hermitianInt).2.matrix_.elem 0 0 = 2 ∧
    (tracingBackend InversionFlag.byLU hermitianInt.matrix_).matrix.elem 0 0 = 0 ∧
    (invert CopyConstructor.owning tracingBackend InversionFlag.byLDLT
      hermitianInt).2.matrix_.elem 0 0 = 2 ∧
    (tracingBackend InversionFlag.byLDLT hermitianInt.matrix_).matrix.elem 0 0 = 1 ∧
    invert.flag InversionFlag.byLDLH = InversionFlag.byLDLH ∧
    invert.flag InversionFlag.byLLH = InversionFlag.byLLH ∧
    invert.flag InversionFlag.asDiagonal = InversionFlag.asDiagonal := by
  decide

/-! ## Exception safety of the inversion -/

/-- C21 (as stated, refuted): with a backing type whose copy refers to the
element storage of its original, an inversion of the copy that zeroes its
operand and then fails makes `invert` fail, and the backing matrix of
`hermitianInt`, whose entry `(0,0)` was 2, holds zeros after the call. -/
theorem invert_aliasing_overwritten :
    (failingBackend (invert.flag InversionFlag.byLLH) hermitianInt.matrix_).ok = false ∧
    (invert CopyConstructor.aliasing failingBackend InversionFlag.byLLH hermitianInt).1 = false ∧
    (invert CopyConstructor.aliasing failingBackend InversionFlag.byLLH
      hermitianInt).2.matrix_.elem 0 0 = 0 ∧
    hermitianInt.matrix_.elem 0 0 = 2 ∧
    (invert CopyConstructor.aliasing failingBackend InversionFlag.byLLH hermitianInt).2 ≠
      hermitianInt := by
  refine ⟨rfl, rfl, rfl, rfl, ?_⟩
  intro h
  have h00 : (invert CopyConstructor.aliasing failingBackend InversionFlag.byLLH
      hermitianInt).2.matrix_.elem 0 0 = hermitianInt.matrix_.elem 0 0 := by rw [h]
  exact absurd h00 (by decide)

/-- C21 (amended): `invert` runs the backing inversion on a copy.  When the copy
has element storage of its own and that inversion fails, `invert` fails and
the matrix is exactly the matrix before the call, whatever the inversion did to
its copy; when the copy refers to the storage of its original and the
inversion fails, `invert` fails and the matrix holds what the inversion left
behind.  When the inversion succeeds, the backing matrix is the inverted copy.
For the selectors `asUniLower` and `asUniUpper` the matrix stays as it is. -/
theorem invert_strong_guarantee {E : Type} (backend : InversionFlag → Mat E → Inverted E)
    (IF : InversionFlag) (m : HermitianMatrix E) :
    (IF ≠ InversionFlag.asUniLower → IF ≠ InversionFlag.asUniUpper →
      (backend (invert.flag IF) m.matrix_).ok = false →
      invert CopyConstructor.owning backend IF m = (false, m) ∧
      invert CopyConstructor.aliasing backend IF m =
        (false, ⟨(backend (invert.flag IF) m.matrix_).matrix⟩)) ∧
    (∀ copy, IF ≠ InversionFlag.asUniLower → IF ≠ InversionFlag.asUniUpper →
      (backend (invert.flag IF) m.matrix_).ok = true →
      invert copy backend IF m = (true, ⟨(backend (invert.flag IF) m.matrix_).matrix⟩)) ∧
    (∀ copy, IF = InversionFlag.asUniLower ∨ IF = InversionFlag.asUniUpper →
      invert copy backend IF m = (true, m)) := by
  refine ⟨?_, ?_, ?_⟩
  · intro h1 h2 hfail
    simp [invert, invert.run, h1, h2, hfail]
  · intro copy h1 h2 hok
    simp [invert, invert.run, h1, h2, hok]
  · intro copy h
    simp [invert, h]

/-- With a copy that has storage of its own, a failing inversion that zeroes
its copy leaves `hermitianInt` as it was; a succeeding one installs its
result. -/
theorem invert_strong_guarantee_witness :
    invert CopyConstructor.owning failingBackend InversionFlag.byLLH hermitianInt =
      (false, hermitianInt) ∧
    invert CopyConstructor.aliasing tracingBackend InversionFlag.byLLH hermitianInt =
      (true, ⟨(tracingBackend (invert.flag InversionFlag.byLLH) hermitianInt.matrix_).matrix⟩) :=
  ⟨((invert_strong_guarantee failingBackend InversionFlag.byLLH hermitianInt).1
      (by decide) (by decide) rfl).1,
    (invert_strong_guarantee tracingBackend InversionFlag.byLLH hermitianInt).2.1
      CopyConstructor.aliasing (by decide) (by decide) rfl⟩

/-- Where the symmetric operand has the default `NF`: for addition,
subtraction, Schur product and multiplication and every matrix category the
header handles (static, hybrid, dynamic, custom, compressed, identity,
symmetric, Hermitian), and for a numeric scalar in a multiplication, the trait
with the Hermitian operand on the left and the trait with the Hermitian operand
on the right select the same wrapper. -/
theorem trait_order_independent (E : Type) [Element E] :
    (∀ B, B = OperandType.staticMatrix ∨ B = OperandType.hybridMatrix ∨
        B = OperandType.dynamicMatrix ∨ B = OperandType.customMatrix ∨
        B = OperandType.compressedMatrix ∨ B = OperandType.identityMatrix ∨
        B = OperandType.symmetricMatrix true ∨ B = OperandType.hermitianMatrix →
      (∃ w, AddTrait.left E B = some w ∧ AddTrait.right E B = some w) ∧
      (∃ w, SubTrait.left E B = some w ∧ SubTrait.right E B = some w) ∧
      (∃ w, SchurTrait.left E B = some w ∧ SchurTrait.right E B = some w) ∧
      (∃ w, MultTrait.left B = some w ∧ MultTrait.right B = some w)) ∧
    (∃ w, MultTrait.left OperandType.numeric = some w ∧
      MultTrait.right OperandType.numeric = some w) := by
  refine ⟨?_, ⟨_, rfl, rfl⟩⟩
  intro B hB
  rcases hB with h | h | h | h | h | h | h | h <;> subst h <;>
    exact ⟨⟨_, rfl, rfl⟩, ⟨_, rfl, rfl⟩, ⟨_, rfl, rfl⟩, ⟨_, rfl, rfl⟩⟩

/-- The symmetric operand with complex elements: unwrapped in both orders. -/
theorem trait_order_independent_witness :
    (∃ w, AddTrait.left Cplx (OperandType.symmetricMatrix true) = some w ∧
      AddTrait.right Cplx (OperandType.symmetricMatrix true) = some w) ∧
    (∃ w, SubTrait.left Cplx (OperandType.symmetricMatrix true) = some w ∧
      SubTrait.right Cplx (OperandType.symmetricMatrix true) = some w) ∧
    (∃ w, SchurTrait.left Cplx (OperandType.symmetricMatrix true) = some w ∧
      SchurTrait.right Cplx (OperandType.symmetricMatrix true) = some w) ∧
    (∃ w, MultTrait.left (OperandType.symmetricMatrix true) = some w ∧
      MultTrait.right (OperandType.symmetricMatrix true) = some w) :=
  (trait_order_independent Cplx).1 (OperandType.symmetricMatrix true)
    (Or.inr (Or.inr (Or.inr (Or.inr (Or.inr (Or.inr (Or.inl rfl)))))))

/-- C22: the subtraction `a - b` of a sparse and a dense vector fails with
`std::invalid_argument` exactly when the sizes differ; when they agree it
yields an expression of that size whose element at every index `i` below the
size is `a[i] - b[i]`, by `operator[]` and by `at`. -/
theorem subSparseDense_spec {E : Type} [Sub E] [Zero E] (a : SparseVec E) (b : List E) :
    (subSparseDense a b = Except.error Fault.invalidArgument ↔ a.size ≠ b.length) ∧
    (a.size = b.length →
      ∃ e, subSparseDense a b = Except.ok e ∧ e.size = a.size ∧
        ∀ i, i < a.size → ∃ bi, b[i]? = some bi ∧
          e.get i = Except.ok (a.get i - bi) ∧ e.atIndex i = Except.ok (a.get i - bi)) := by
  constructor
  · unfold subSparseDense
    by_cases h : a.size = b.length
    · simp [h]
    · simp [h]
  · intro h
    refine ⟨⟨a, b⟩, by simp [subSparseDense, h], rfl, ?_⟩
    intro i hi
    have hb : i < b.length := by omega
    refine ⟨b[i], List.getElem?_eq_getElem hb, ?_, ?_⟩
    · simp [SVecDVecSubExpr.get, hi, List.getElem?_eq_getElem hb]
    · have hge : ¬ i ≥ a.size := by omega
      simp [SVecDVecSubExpr.atIndex, SVecDVecSubExpr.get, hi, hge, List.getElem?_eq_getElem hb]

/-- The vectors `sparseA` and `denseB` of size 4, and a dense vector of size 2. -/
theorem subSparseDense_spec_witness :
    (∃ e, subSparseDense sparseA denseB = Except.ok e ∧ e.size = sparseA.size ∧
      ∀ i, i < sparseA.size → ∃ bi, denseB[i]? = some bi ∧
        e.get i = Except.ok (sparseA.get i - bi) ∧
        e.atIndex i = Except.ok (sparseA.get i - bi)) ∧
    subSparseDense sparseA [1, 2] = Except.error Fault.invalidArgument :=
  ⟨(subSparseDense_spec sparseA denseB).2 rfl,
    (subSparseDense_spec sparseA [1, 2]).1.mpr (by decide)⟩

/-! ## Guards of the vector predicates -/

/-- C27: in both vector predicates every subtraction the evaluation performs
has a subtrahend not larger than the minuend (it does not wrap around) and
every element access is at an index below the size of the vector, for all
`row`, `column` and vector lengths; the traced evaluation returns the result of
the predicate, which is always a Boolean. -/
theorem tryAssignVector_guarded {E : Type} [Element E] (lhs : HermitianMatrix E) (rhs : List E)
    (row column : Nat) :
    (∀ op ∈ (tryAssignColumnVector.traced rhs row column).2, Operation.safe op) ∧
    (∀ op ∈ (tryAssignRowVector.traced rhs row column).2, Operation.safe op) ∧
    (tryAssignColumnVector.traced rhs row column).1 = tryAssignColumnVector lhs rhs row column ∧
    (tryAssignRowVector.traced rhs row column).1 = tryAssignRowVector lhs rhs row column ∧
    (∃ b, tryAssignColumnVector lhs rhs row column = some b) ∧
    (∃ b, tryAssignRowVector lhs rhs row column = some b) := by
  refine ⟨?_, ?_, ?_, ?_, tryAssignColumnVector_returns lhs rhs row column,
    tryAssignRowVector_returns lhs rhs row column⟩
  · intro op hop
    unfold tryAssignColumnVector.traced at hop
    by_cases hb : Element.isBuiltin E = true
    · simp [hb] at hop
    · by_cases hlt : column < row
      · simp [hb, hlt] at hop
      · by_cases hn : rhs.length ≤ usub column row
        · simp only [hb, hlt, hn, if_true, if_false, List.mem_singleton, Bool.false_eq_true] at hop
          subst hop
          show row ≤ column
          omega
        · simp only [hb, hlt, hn, if_false, List.mem_cons, List.mem_singleton,
            Bool.false_eq_true, List.mem_nil_iff, or_false] at hop
          rcases hop with h | h | h
          · subst h
            show row ≤ column
            omega
          · subst h
            show row ≤ column
            omega
          · subst h
            show usub column row < rhs.length
            omega
  · intro op hop
    unfold tryAssignRowVector.traced at hop
    by_cases hb : Element.isBuiltin E = true
    · simp [hb] at hop
    · by_cases hlt : row < column
      · simp [hb, hlt] at hop
      · by_cases hn : rhs.length ≤ usub row column
        · simp only [hb, hlt, hn, if_true, if_false, List.mem_singleton, Bool.false_eq_true] at hop
          subst hop
          show column ≤ row
          omega
        · simp only [hb, hlt, hn, if_false, List.mem_cons, List.mem_singleton,
            Bool.false_eq_true, List.mem_nil_iff, or_false] at hop
          rcases hop with h | h | h
          · subst h
            show column ≤ row
            omega
          · subst h
            show column ≤ row
            omega
          · subst h
            show usub row column < rhs.length
            omega
  · unfold tryAssignColumnVector.traced tryAssignColumnVector tryAssignColumnVector.first
    rw [Flow.result_seq_ret]
    by_cases hb : Element.isBuiltin E = true
    · simp [hb]
    · by_cases hlt : column < row
      · simp [hb, hlt]
      · by_cases hn : rhs.length ≤ usub column row
        · simp [hb, hlt, hn]
        · simp [hb, hlt, hn]
  · unfold tryAssignRowVector.traced tryAssignRowVector tryAssignRowVector.first
    rw [Flow.result_seq_ret]
    by_cases hb : Element.isBuiltin E = true
    · simp [hb]
    · by_cases hlt : row < column
      · simp [hb, hlt]
      · by_cases hn : rhs.length ≤ usub row column
        · simp [hb, hlt, hn]
        · simp [hb, hlt, hn]

/-- The column vector `[1, i]` at `(0, 1)`: the evaluation subtracts `1 - 0`
twice and reads the element with index 1 of 2. -/
theorem tryAssignVector_guarded_witness :
    (tryAssignColumnVector.traced [(⟨1, 0⟩ : Cplx), Cplx.I] 0 1).2 =
      [Operation.subtract 1 0, Operation.subtract 1 0, Operation.access 1 2] ∧
    ∀ op ∈ (tryAssignColumnVector.traced [(⟨1, 0⟩ : Cplx), Cplx.I] 0 1).2, Operation.safe op :=
  ⟨by decide, (tryAssignVector_guarded (zeroHermitian 3) [⟨1, 0⟩, Cplx.I] 0 1).1⟩

/-! ## Sparse and dense band predicates -/

/-- In a list of elements with strictly ascending indices, the element found
under an index is the element stored under it. -/
theorem find_of_mem_sorted {E : Type} (es : List (Nat × E)) (e : Nat × E)
    (hs : es.Pairwise (fun p q => p.1 < q.1)) (he : e ∈ es) :
    es.find? (fun p => p.1 == e.1) = some e := by
  induction es with
  | nil => cases he
  | cons x xs ih =>
    rw [List.pairwise_cons] at hs
    rw [List.find?_cons]
    rcases List.mem_cons.mp he with h | h
    · subst h
      simp
    · have hlt : x.1 < e.1 := hs.1 e h
      have hne : (x.1 == e.1) = false := by
        simp only [beq_eq_false_iff_ne, ne_eq]
        omega
      simp only [hne]
      exact ih hs.2 h

/-- The element access of a well-formed sparse vector returns the stored
value. -/
theorem SparseVec.get_of_mem {E : Type} [Zero E] (a : SparseVec E) (e : Nat × E)
    (hwf : a.WellFormed) (he : e ∈ a.elements) : a.get e.1 = e.2 := by
  unfold SparseVec.get
  rw [find_of_mem_sorted a.elements e hwf.1 he]

/-- The entries of the densified vector are real exactly when the stored
elements are, provided zero is real. -/
theorem SparseVec.toDense_real_iff {E : Type} [Element E] [Zero E] (a : SparseVec E)
    (hzero : Element.isReal (0 : E) = true) (hwf : a.WellFormed) :
    (∀ x ∈ a.toDense, Element.isReal x = true) ↔
      ∀ e ∈ a.elements, Element.isReal e.2 = true := by
  constructor
  · intro h e he
    have hlt : e.1 < a.size := hwf.2 e he
    have hmem : a.get e.1 ∈ a.toDense := by
      unfold SparseVec.toDense
      exact List.mem_map.mpr ⟨e.1, List.mem_range.mpr hlt, rfl⟩
    have := h _ hmem
    rwa [SparseVec.get_of_mem a e hwf he] at this
  · intro h x hx
    unfold SparseVec.toDense at hx
    obtain ⟨i, _, rfl⟩ := List.mem_map.mp hx
    unfold SparseVec.get
    cases hf : a.elements.find? (fun e => e.1 == i) with
    | none => simpa using hzero
    | some e => exact h e (List.mem_of_find?_eq_some hf)

/-- C28: for a sparse vector (stored elements in ascending index order, indices
below the size) and an element type whose zero is real, the sparse band
predicate returns what the dense band predicate returns on the densified
vector, for every band index. -/
theorem tryAssignSparseBand_eq_dense {E : Type} [Element E] [Zero E] (lhs : HermitianMatrix E)
    (rhs : SparseVec E) (band : Int) (row column : Nat)
    (hzero : Element.isReal (0 : E) = true) (hwf : rhs.WellFormed) :
    tryAssignSparseBand lhs rhs band row column =
      tryAssignDenseBand lhs rhs.toDense band row column := by
  rw [tryAssignSparseBand_eq, tryAssignDenseBand_eq]
  congr 1
  rw [Bool.eq_iff_iff]
  simp only [decide_eq_true_eq]
  rw [SparseVec.toDense_real_iff rhs hzero hwf]

/-- The sparse vector with the single stored element `i`: both predicates
reject it on band 0. -/
theorem tryAssignSparseBand_eq_dense_witness :
    tryAssignSparseBand (zeroHermitian 3) sparseImaginary 0 0 0 =
      tryAssignDenseBand (zeroHermitian 3) sparseImaginary.toDense 0 0 0 ∧
    tryAssignSparseBand (zeroHermitian 3) sparseImaginary 0 0 0 = some false ∧
    sparseImaginary.toDense = [⟨0, 0⟩, Cplx.I, ⟨0, 0⟩] :=
  ⟨tryAssignSparseBand_eq_dense (zeroHermitian 3) sparseImaginary 0 0 0 (by decide)
      ⟨by simp [sparseImaginary], by simp [sparseImaginary]⟩,
    by decide, by decide⟩

/-! ## The sub-block of the block predicate -/

/-- The constant `size` of the block predicate past the early exit: the
subtraction does not wrap and yields the number of covered diagonal
positions. -/
theorem tryAssignMatrix.size_eq {E : Type} (rhs : Mat E) (row column : Nat)
    (hr : row + rhs.rows < sizeMod) (hc : column + rhs.columns < sizeMod)
    (hpass : ¬ (uadd row rhs.rows ≤ column ∨ uadd column rhs.columns ≤ row)) :
    tryAssignMatrix.size rhs row column =
      min (row + rhs.rows) (column + rhs.columns) - max row column := by
  rw [uadd_eq_add hr, uadd_eq_add hc] at hpass
  unfold tryAssignMatrix.size tryAssignMatrix.lower
  rw [uadd_eq_add hr, uadd_eq_add hc]
  by_cases hl : row > column
  · simp only [hl, decide_True, if_true]
    rw [usub_eq_sub (by omega) (by omega)]
    omega
  · simp only [hl, decide_False, if_false, Bool.false_eq_true]
    rw [usub_eq_sub (by omega) (by omega)]
    omega

/-- The constants `subrow` and `subcol` of the block predicate: the guarded
differences. -/
theorem tryAssignMatrix.subrow_subcol_eq (row column : Nat) (hr : row < sizeMod)
    (hc : column < sizeMod) :
    tryAssignMatrix.subrow row column = max row column - row ∧
    tryAssignMatrix.subcol row column = max row column - column := by
  unfold tryAssignMatrix.subrow tryAssignMatrix.subcol tryAssignMatrix.lower
  by_cases hl : row > column
  · simp only [hl, decide_True, if_true]
    rw [usub_eq_sub (by omega) hr]
    omega
  · simp only [hl, decide_False, if_false, Bool.false_eq_true]
    rw [usub_eq_sub (by omega) hc]
    omega

/-- C26: in the block predicate, for a source and a position past the early
exit (with index sums in the range of `size_t`): the subtractions for `size`,
`subrow` and `subcol` do not wrap; `size` is the number of diagonal positions
the block covers, which are the positions `d0 .. d0 + size` for
`d0 = max(row, column)`; the sub-block `(subrow, subcol, size, size)` lies
within the source; and its entry `(a, b)` is the source entry that lands on the
target position `(d0 + a, d0 + b)`. -/
theorem tryAssignMatrix_subblock {E : Type} [Element E] [DecidableEq E]
    (lhs : HermitianMatrix E) (rhs : Mat E) (row column : Nat)
    (hr : row + rhs.rows < sizeMod) (hc : column + rhs.columns < sizeMod)
    (hpass : ¬ (uadd row rhs.rows ≤ column ∨ uadd column rhs.columns ≤ row)) :
    (tryAssignMatrix lhs rhs row column =
      if tryAssignMatrix.size rhs row column < 2 then some true
      else (submatrix rhs (tryAssignMatrix.subrow row column) (tryAssignMatrix.subcol row column)
        (tryAssignMatrix.size rhs row column) (tryAssignMatrix.size rhs row column)).map
          isHermitian) ∧
    ((if tryAssignMatrix.lower row column then row else column) ≤
        min (uadd row rhs.rows) (uadd column rhs.columns) ∧
      (tryAssignMatrix.lower row column = false → row ≤ column) ∧
      (tryAssignMatrix.lower row column = true → column ≤ row)) ∧
    (tryAssignMatrix.size rhs row column = overlapSize rhs row column ∧
      (∀ d, (row ≤ d ∧ d < row + rhs.rows ∧ column ≤ d ∧ d < column + rhs.columns) ↔
        (max row column ≤ d ∧ d < max row column + tryAssignMatrix.size rhs row column)) ∧
      (Finset.filter (fun d => row ≤ d ∧ column ≤ d ∧ d < column + rhs.columns)
        (Finset.range (row + rhs.rows))).card = tryAssignMatrix.size rhs row column) ∧
    (tryAssignMatrix.subrow row column + tryAssignMatrix.size rhs row column ≤ rhs.rows ∧
      tryAssignMatrix.subcol row column + tryAssignMatrix.size rhs row column ≤ rhs.columns) ∧
    (∃ sub, submatrix rhs (tryAssignMatrix.subrow row column) (tryAssignMatrix.subcol row column)
        (tryAssignMatrix.size rhs row column) (tryAssignMatrix.size rhs row column) = some sub ∧
      sub.rows = tryAssignMatrix.size rhs row column ∧
      sub.columns = tryAssignMatrix.size rhs row column ∧
      ∀ a, a < tryAssignMatrix.size rhs row column →
        ∀ b, b < tryAssignMatrix.size rhs row column →
          ∃ p q, p < rhs.rows ∧ q < rhs.columns ∧ row + p = max row column + a ∧
            column + q = max row column + b ∧ sub.elem a b = rhs.elem p q) := by
  have hsize := tryAssignMatrix.size_eq rhs row column hr hc hpass
  have hsub := tryAssignMatrix.subrow_subcol_eq row column (by omega) (by omega)
  have hpass2 : ¬ (row + rhs.rows ≤ column ∨ column + rhs.columns ≤ row) := by
    rw [uadd_eq_add hr, uadd_eq_add hc] at hpass
    exact hpass
  have hbound : tryAssignMatrix.subrow row column + tryAssignMatrix.size rhs row column ≤
        rhs.rows ∧
      tryAssignMatrix.subcol row column + tryAssignMatrix.size rhs row column ≤ rhs.columns := by
    rw [hsize, hsub.1, hsub.2]
    omega
  refine ⟨?_, ⟨?_, ?_, ?_⟩, ⟨?_, ?_, ?_⟩, hbound, ?_⟩
  · unfold tryAssignMatrix
    simp only [hpass, if_false]
    rfl
  · rw [uadd_eq_add hr, uadd_eq_add hc]
    unfold tryAssignMatrix.lower
    by_cases hl : row > column
    · simp only [hl, decide_True, if_true]
      omega
    · simp only [hl, decide_False, if_false, Bool.false_eq_true]
      omega
  · intro h
    simp only [tryAssignMatrix.lower, decide_eq_false_iff_not] at h
    omega
  · intro h
    simp only [tryAssignMatrix.lower, decide_eq_true_eq] at h
    omega
  · rw [hsize]
    rfl
  · intro d
    rw [hsize]
    omega
  · have hset : Finset.filter (fun d => row ≤ d ∧ column ≤ d ∧ d < column + rhs.columns)
        (Finset.range (row + rhs.rows)) =
          Finset.Ico (max row column) (min (row + rhs.rows) (column + rhs.columns)) := by
      ext d
      simp only [Finset.mem_filter, Finset.mem_range, Finset.mem_Ico]
      omega
    rw [hset, Nat.card_Ico, hsize]
  · have hfit : uadd (tryAssignMatrix.subrow row column) (tryAssignMatrix.size rhs row column) ≤
          rhs.rows ∧
        uadd (tryAssignMatrix.subcol row column) (tryAssignMatrix.size rhs row column) ≤
          rhs.columns := by
      rw [uadd_eq_add (by omega), uadd_eq_add (by omega)]
      exact hbound
    refine ⟨⟨tryAssignMatrix.size rhs row column, tryAssignMatrix.size rhs row column,
      fun i j => rhs.elem (uadd (tryAssignMatrix.subrow row column) i)
        (uadd (tryAssignMatrix.subcol row column) j)⟩,
      by simp only [submatrix, hfit, and_self, if_true], rfl, rfl, ?_⟩
    intro a ha b hb
    refine ⟨tryAssignMatrix.subrow row column + a, tryAssignMatrix.subcol row column + b,
      by omega, by omega, ?_, ?_, ?_⟩
    · rw [hsub.1]
      omega
    · rw [hsub.2]
      omega
    · show rhs.elem (uadd _ a) (uadd _ b) = _
      rw [uadd_eq_add (by omega), uadd_eq_add (by omega)]

/-- The block `straddlingBlock` at `(0, 1)`: one covered diagonal position, the
sub-block starts at source entry `(1, 0)`. -/
theorem tryAssignMatrix_subblock_witness :
    tryAssignMatrix.size straddlingBlock 0 1 = overlapSize straddlingBlock 0 1 ∧
    tryAssignMatrix.size straddlingBlock 0 1 = 1 ∧
    tryAssignMatrix.subrow 0 1 = 1 ∧ tryAssignMatrix.subcol 0 1 = 0 ∧
    tryAssignMatrix.subrow 0 1 + tryAssignMatrix.size straddlingBlock 0 1 ≤
      straddlingBlock.rows :=
  ⟨(tryAssignMatrix_subblock (zeroHermitian 3) straddlingBlock 0 1 (by decide) (by decide)
      (by decide)).2.2.1.1,
    by decide, by decide, by decide,
    (tryAssignMatrix_subblock (zeroHermitian 3) straddlingBlock 0 1 (by decide) (by decide)
      (by decide)).2.2.2.1.1⟩

/-! ## Kernels of the sparse-minus-dense expression -/

/-- Reading a dense vector after one in-place update. -/
theorem DenseVector.getElem?_updateAt {E : Type} (t : List E) (i j : Nat) (f : E → E) :
    (DenseVector.updateAt t i f)[j]? = if j = i then (t[j]?).map f else t[j]? := by
  unfold DenseVector.updateAt
  by_cases hji : j = i
  · subst hji
    cases h : t[j]? with
    | none => simp [h]
    | some x =>
      have hlt : j < t.length := (List.getElem?_eq_some.mp h).1
      simp [List.getElem?_set, hlt]
  · have hij : ¬ i = j := fun e => hji e.symm
    cases h : t[i]? with
    | none => simp [hji]
    | some x => simp [hji, List.getElem?_set, hij]

/-- An in-place update keeps the size of the vector. -/
theorem DenseVector.length_updateAt {E : Type} (t : List E) (i : Nat) (f : E → E) :
    (DenseVector.updateAt t i f).length = t.length := by
  unfold DenseVector.updateAt
  cases t[i]? <;> simp

/-- Updating a dense vector with every stored element of a sorted list of
elements combines entry `i` with the value stored under `i`, or with zero. -/
theorem DenseVector.getElem?_foldl_updateAt {E : Type} [Zero E] (g : E → E → E)
    (hg : ∀ x, g x 0 = x) (es : List (Nat × E)) (hs : es.Pairwise (fun p q => p.1 < q.1))
    (t : List E) (i : Nat) :
    (es.foldl (fun acc e => DenseVector.updateAt acc e.1 (fun x => g x e.2)) t)[i]? =
      (t[i]?).map fun x => g x
        (match es.find? (fun e => e.1 == i) with
          | some e => e.2
          | none => 0) := by
  induction es generalizing t with
  | nil =>
    simp only [List.foldl_nil, List.find?_nil, hg]
    cases t[i]? <;> rfl
  | cons e es ih =>
    rw [List.pairwise_cons] at hs
    rw [List.foldl_cons, ih hs.2, DenseVector.getElem?_updateAt, List.find?_cons]
    by_cases hei : e.1 = i
    · have hnone : es.find? (fun p => p.1 == i) = none := by
        rw [List.find?_eq_none]
        intro p hp
        have := hs.1 p hp
        simp only [beq_iff_eq]
        omega
      subst hei
      simp only [if_true, hnone, beq_self_eq_true, hg]
      cases t[e.1]? <;> simp
    · have hie : ¬ i = e.1 := fun h => hei h.symm
      have hbeq : (e.1 == i) = false := by simpa using hei
      simp only [hie, if_false, hbeq]

/-- Updating a dense vector with the stored elements keeps its size. -/
theorem DenseVector.length_foldl_updateAt {E : Type} (g : E → E → E) (es : List (Nat × E))
    (t : List E) :
    (es.foldl (fun acc e => DenseVector.updateAt acc e.1 (fun x => g x e.2)) t).length =
      t.length := by
  induction es generalizing t with
  | nil => rfl
  | cons e es ih => rw [List.foldl_cons, ih, DenseVector.length_updateAt]

/-- C23: for a target `t` and operands `a` (sparse) and `b` (dense) of the
same size, in exact arithmetic, the kernels leave at every index `i` the value
that evaluation by `operator[]` prescribes: `assign` leaves `a[i] - b[i]`,
`addAssign` leaves `t[i] + (a[i] - b[i])` and `subAssign` leaves
`t[i] - (a[i] - b[i])`; the size of the target is unchanged. -/
theorem SVecDVecSubExpr.kernels_agree {E : Type} [AddCommGroup E] (t : List E)
    (e : SVecDVecSubExpr E) (hwf : e.lhs_.WellFormed) (hsize : e.lhs_.size = e.rhs_.length)
    (ht : t.length = e.size) :
    ((SVecDVecSubExpr.assign t e).length = e.size ∧
      (SVecDVecSubExpr.addAssign t e).length = e.size ∧
      (SVecDVecSubExpr.subAssign t e).length = e.size) ∧
    ∀ i, i < e.size → ∃ x ti, e.get i = Except.ok x ∧ t[i]? = some ti ∧
      (SVecDVecSubExpr.assign t e)[i]? = some x ∧
      (SVecDVecSubExpr.addAssign t e)[i]? = some (ti + x) ∧
      (SVecDVecSubExpr.subAssign t e)[i]? = some (ti - x) := by
  unfold SVecDVecSubExpr.size at ht ⊢
  constructor
  · simp only [SVecDVecSubExpr.assign, SVecDVecSubExpr.addAssign, SVecDVecSubExpr.subAssign,
      DenseVector.addAssignSparse, DenseVector.subAssignSparse,
      DenseVector.length_foldl_updateAt, DenseVector.assign, DenseVector.addAssign,
      DenseVector.subAssign, DenseVector.neg, List.length_zipWith, List.length_map]
    omega
  · intro i hi
    have hbi : i < e.rhs_.length := by omega
    have hti : i < t.length := by omega
    have hb : e.rhs_[i]? = some e.rhs_[i] := List.getElem?_eq_getElem hbi
    have htt : t[i]? = some t[i] := List.getElem?_eq_getElem hti
    refine ⟨e.lhs_.get i - e.rhs_[i], t[i], ?_, htt, ?_, ?_, ?_⟩
    · simp [SVecDVecSubExpr.get, hi, hb]
    · unfold SVecDVecSubExpr.assign DenseVector.addAssignSparse
      rw [DenseVector.getElem?_foldl_updateAt (fun x y => x + y) (fun x => add_zero x)
        e.lhs_.elements hwf.1]
      simp only [DenseVector.assign, DenseVector.neg, List.getElem?_zipWith, List.getElem?_map,
        htt, hb, Option.map_some', Option.some.injEq, SparseVec.get]
      abel
    · unfold SVecDVecSubExpr.addAssign DenseVector.addAssignSparse
      rw [DenseVector.getElem?_foldl_updateAt (fun x y => x + y) (fun x => add_zero x)
        e.lhs_.elements hwf.1]
      simp only [DenseVector.subAssign, List.getElem?_zipWith, htt, hb, Option.map_some',
        Option.some.injEq, SparseVec.get]
      abel
    · unfold SVecDVecSubExpr.subAssign DenseVector.subAssignSparse
      rw [DenseVector.getElem?_foldl_updateAt (fun x y => x - y) (fun x => sub_zero x)
        e.lhs_.elements hwf.1]
      simp only [DenseVector.addAssign, List.getElem?_zipWith, htt, hb, Option.map_some',
        Option.some.injEq, SparseVec.get]
      abel

/-- The target `denseT` and the operands `sparseA` and `denseB`. -/
theorem SVecDVecSubExpr.kernels_agree_witness :
    (∀ i, i < 4 → ∃ x ti, (⟨sparseA, denseB⟩ : SVecDVecSubExpr Int).get i = Except.ok x ∧
      denseT[i]? = some ti ∧
      (SVecDVecSubExpr.assign denseT ⟨sparseA, denseB⟩)[i]? = some x ∧
      (SVecDVecSubExpr.addAssign denseT ⟨sparseA, denseB⟩)[i]? = some (ti + x) ∧
      (SVecDVecSubExpr.subAssign denseT ⟨sparseA, denseB⟩)[i]? = some (ti - x)) ∧
    SVecDVecSubExpr.assign denseT ⟨sparseA, denseB⟩ = [0 - 1, 3, 0 - 3, 3] ∧
    SVecDVecSubExpr.addAssign denseT ⟨sparseA, denseB⟩ = [9, 23, 27, 43] ∧
    SVecDVecSubExpr.subAssign denseT ⟨sparseA, denseB⟩ = [11, 17, 33, 37] :=
  ⟨(SVecDVecSubExpr.kernels_agree denseT ⟨sparseA, denseB⟩
      ⟨by simp [sparseA], by simp [sparseA]⟩ rfl rfl).2,
    by decide, by decide, by decide⟩

/-! ## Restructuring operators -/

/-- Reading the densified vector below the size. -/
theorem SparseVec.getElem?_toDense {E : Type} [Zero E] (a : SparseVec E) (i : Nat)
    (hi : i < a.size) : a.toDense[i]? = some (a.get i) := by
  unfold SparseVec.toDense
  rw [List.getElem?_map, List.getElem?_range hi]
  rfl

/-- C24: for vectors `a` (sparse), `b` and `d` (dense) of equal size, in exact
arithmetic, the operator that rewrites `(a - b) + d` into `(d - b) + a` and the
operator that rewrites `(a - b) - d` into `a - (b + d)` yield at every index
`i` the value of the original expression: the element `(a - b)[i]` plus,
respectively minus, `d[i]`. -/
theorem SVecDVecSubExpr.restructuring_preserves {E : Type} [AddCommGroup E]
    (e : SVecDVecSubExpr E) (d : List E) (hsize : e.lhs_.size = e.rhs_.length)
    (hd : d.length = e.size) :
    (∃ l, e.plusDense d = Except.ok l ∧ l.length = e.size ∧
      ∀ i, i < e.size → ∃ x di, e.get i = Except.ok x ∧ d[i]? = some di ∧
        l[i]? = some (x + di)) ∧
    (∃ e2, e.minusDense d = Except.ok e2 ∧ e2.size = e.size ∧
      ∀ i, i < e.size → ∃ x di, e.get i = Except.ok x ∧ d[i]? = some di ∧
        e2.get i = Except.ok (x - di)) := by
  unfold SVecDVecSubExpr.size at hd ⊢
  have hlen1 : (List.zipWith (fun p q => p - q) d e.rhs_).length = e.lhs_.size := by
    rw [List.length_zipWith]
    omega
  have hlen2 : (List.zipWith (fun p q => p + q) e.rhs_ d).length = e.lhs_.size := by
    rw [List.length_zipWith]
    omega
  constructor
  · refine ⟨List.zipWith (fun p q => p + q) (List.zipWith (fun p q => p - q) d e.rhs_)
      e.lhs_.toDense, ?_, ?_, ?_⟩
    · have h1 : ¬ d.length ≠ e.rhs_.length := by omega
      have h2 : ¬ (List.zipWith (fun p q => p - q) d e.rhs_).length ≠ e.lhs_.size := by omega
      simp only [SVecDVecSubExpr.plusDense, DenseVector.sub, h1, if_false,
        DenseVector.addSparse, h2]
    · rw [List.length_zipWith, hlen1]
      simp [SparseVec.toDense]
    · intro i hi
      have hbi : i < e.rhs_.length := by omega
      have hdi : i < d.length := by omega
      have hb : e.rhs_[i]? = some e.rhs_[i] := List.getElem?_eq_getElem hbi
      have hdd : d[i]? = some d[i] := List.getElem?_eq_getElem hdi
      refine ⟨e.lhs_.get i - e.rhs_[i], d[i], ?_, hdd, ?_⟩
      · simp [SVecDVecSubExpr.get, hi, hb]
      · simp only [List.getElem?_zipWith, hb, hdd, SparseVec.getElem?_toDense e.lhs_ i hi,
          Option.some.injEq]
        abel
  · refine ⟨⟨e.lhs_, List.zipWith (fun p q => p + q) e.rhs_ d⟩, ?_, rfl, ?_⟩
    · have h1 : ¬ e.rhs_.length ≠ d.length := by omega
      have h2 : ¬ e.lhs_.size ≠ (List.zipWith (fun p q => p + q) e.rhs_ d).length := by omega
      simp only [SVecDVecSubExpr.minusDense, DenseVector.add, h1, if_false, subSparseDense, h2]
    · intro i hi
      have hbi : i < e.rhs_.length := by omega
      have hdi : i < d.length := by omega
      have hb : e.rhs_[i]? = some e.rhs_[i] := List.getElem?_eq_getElem hbi
      have hdd : d[i]? = some d[i] := List.getElem?_eq_getElem hdi
      refine ⟨e.lhs_.get i - e.rhs_[i], d[i], ?_, hdd, ?_⟩
      · simp [SVecDVecSubExpr.get, hi, hb]
      · simp only [SVecDVecSubExpr.get, hi, if_true, List.getElem?_zipWith, hb, hdd,
          Except.ok.injEq]
        abel

/-- The expression `sparseA - denseB` combined with `denseT`. -/
theorem SVecDVecSubExpr.restructuring_preserves_witness :
    (∃ l, SVecDVecSubExpr.plusDense ⟨sparseA, denseB⟩ denseT = Except.ok l ∧
      l.length = (⟨sparseA, denseB⟩ : SVecDVecSubExpr Int).size ∧
      ∀ i, i < (⟨sparseA, denseB⟩ : SVecDVecSubExpr Int).size →
        ∃ x di, (⟨sparseA, denseB⟩ : SVecDVecSubExpr Int).get i = Except.ok x ∧
          denseT[i]? = some di ∧ l[i]? = some (x + di)) ∧
    SVecDVecSubExpr.plusDense ⟨sparseA, denseB⟩ denseT = Except.ok [9, 23, 27, 43] :=
  ⟨(SVecDVecSubExpr.restructuring_preserves ⟨sparseA, denseB⟩ denseT rfl rfl).1, rfl⟩

/-! ## Rows of products -/

/-- Reading the row of a matrix below the number of columns. -/
theorem Mat.getD_row {E : Type} [Zero E] (m : Mat E) (i k : Nat) (hk : k < m.columns) :
    (m.row i).getD k 0 = m.elem i k := by
  unfold Mat.row
  rw [List.getD_eq_getElem?_getD, List.getElem?_map, List.getElem?_range hk]
  rfl

/-- The number of elements of a row. -/
theorem Mat.length_row {E : Type} (m : Mat E) (i : Nat) : (m.row i).length = m.columns := by
  simp [Mat.row]

/-- The product of row `i` of `A` with `B` is row `i` of the product `A * B`. -/
theorem rowTimesMatrix_row {E : Type} [Add E] [Mul E] [Zero E] (A B : Mat E) (i : Nat)
    (hconf : A.columns = B.rows) :
    rowTimesMatrix (A.row i) B = Except.ok ((Mat.mult A B).row i) := by
  unfold rowTimesMatrix
  have hlen : ¬ (A.row i).length ≠ B.rows := by
    rw [Mat.length_row]
    omega
  rw [if_neg hlen, Mat.length_row]
  congr 1
  unfold Mat.row Mat.mult
  apply List.map_congr_left
  intro j _
  apply List.foldl_ext
  intro acc k hk
  have hk2 : k < A.columns := List.mem_range.mp hk
  have := Mat.getD_row A i k hk2
  unfold Mat.row at this
  rw [this]

/-- C25: for conforming matrices `A` and `B` and a valid row index `i`, the
row of the product `A * B` that `row` computes as (row `i` of `A`) times `B`
is row `i` of the evaluated product; for vectors `u` and `v` and a valid index
`i`, the row of the outer product that `row` computes as `u[i]` times `v` is
row `i` of the evaluated outer product. -/
theorem row_restructured {E : Type} [Add E] [Sub E] [Mul E] [Zero E] (A B : Mat E)
    (u v : List E) (i : Nat) :
    (A.columns = B.rows → i < A.rows →
      row (MatExpr.matMatMult (MatExpr.plain A) (MatExpr.plain B)) i =
        rowTimesMatrix (A.row i) B ∧
      row (MatExpr.matMatMult (MatExpr.plain A) (MatExpr.plain B)) i =
        Except.ok ((MatExpr.matMatMult (MatExpr.plain A) (MatExpr.plain B)).eval.row i)) ∧
    (i < u.length →
      ∃ ui, u[i]? = some ui ∧
        row (MatExpr.vecTVecMult u v) i = Except.ok (v.map fun y => ui * y) ∧
        row (MatExpr.vecTVecMult u v) i =
          Except.ok ((MatExpr.vecTVecMult u v).eval.row i)) := by
  constructor
  · intro hconf hi
    have h1 : row (MatExpr.matMatMult (MatExpr.plain A) (MatExpr.plain B)) i =
        rowTimesMatrix (A.row i) B := by
      simp [row, hi, MatExpr.eval]
    refine ⟨h1, ?_⟩
    rw [h1, rowTimesMatrix_row A B i hconf]
    rfl
  · intro hi
    have hu : u[i]? = some u[i] := List.getElem?_eq_getElem hi
    have h1 : row (MatExpr.vecTVecMult u v) i = Except.ok (v.map fun y => u[i] * y) := by
      simp [row, hu]
    refine ⟨u[i], hu, h1, ?_⟩
    rw [h1]
    congr 1
    apply List.ext_getElem?
    intro j
    simp only [MatExpr.eval, Mat.row, Mat.outer, List.getElem?_map]
    by_cases hj : j < v.length
    · rw [List.getElem?_range hj, List.getElem?_eq_getElem hj]
      simp [List.getD_eq_getElem?_getD, hu, List.getElem?_eq_getElem hj]
    · have hnone : v[j]? = none := List.getElem?_eq_none (by omega)
      have hnone2 : (List.range v.length)[j]? = none :=
        List.getElem?_eq_none (by simp; omega)
      rw [hnone, hnone2]
      rfl

/-- The matrices `matP` (2 x 3) and `matQ` (3 x 2), and the outer product of
`(1, 2)` and `(3, 4, 5)`. -/
theorem row_restructured_witness :
    row (MatExpr.matMatMult (MatExpr.plain matP) (MatExpr.plain matQ)) 1 =
      Except.ok ((MatExpr.matMatMult (MatExpr.plain matP) (MatExpr.plain matQ)).eval.row 1) ∧
    (MatExpr.matMatMult (MatExpr.plain matP) (MatExpr.plain matQ)).eval.row 1 = [48, 36] ∧
    (∃ ui, [1, (2 : Int)][1]? = some ui ∧
      row (MatExpr.vecTVecMult [1, 2] [3, 4, (5 : Int)]) 1 =
        Except.ok ([3, 4, (5 : Int)].map fun y => ui * y) ∧
      row (MatExpr.vecTVecMult [1, 2] [3, 4, (5 : Int)]) 1 =
        Except.ok ((MatExpr.vecTVecMult [1, 2] [3, 4, (5 : Int)]).eval.row 1)) :=
  ⟨((row_restructured matP matQ [] [] 1).1 rfl (by decide)).2, by decide,
    (row_restructured matP matQ [1, 2] [3, 4, 5] 1).2 (by decide)⟩

end Blaze
